import Mathlib

/-!
Verification development for the `swallowjson` Go library (`decode.go`).

The library's single operation, `UnmarshalWith(target, spilloverName, raw)`,
decodes a JSON object into a struct, routing each wire key either to the
struct field whose wire name matches it or into a designated "spillover" map
field.

Shallow embedding conventions:

* The Go code delegates token-level parsing to `encoding/json`'s streaming
  decoder (`dec.Token()`, `dec.More()`, `dec.Decode(&v)`).  That decoder is
  external to this repository, so it is modelled at its interface: the raw
  input is a stream of token results (`Stream`), each entry either a token or
  the lexical error the tokenizer would raise at that point.  Trailing bytes
  that are never read by the decoder correspond to stream entries that are
  never popped.  `decToken` models `dec.Token()` (which skips colons and
  commas and never surfaces them), `decMore` models `dec.More()` (true iff
  the next peeked token exists, is not a close delimiter, and is not an
  error), and `parseV` models `dec.Decode(&v)` for `var v interface{}`.
* Go reflection is modelled by explicit data: a `Target` is either a
  non-pointer, a pointer to a non-struct, or a pointer to a struct value
  (`StructVal`, a list of `Field`s each carrying name, `json` tag, type and
  current value).  `reflect.Value.Convert` is modelled by `convert`, with
  `none` standing for the conversion panic; `CanSet` of a field of an
  addressable struct is true iff the field is exported (`isExported`).
* Stateful code is explicit state passing; `fmt.Printf` output is collected
  in the `stdout` component of the `RunResult`; a reflect panic is the
  `Outcome.panicked` outcome.
* Recursion over the stream uses explicit fuel (one unit per call, with
  `raw.length + 1` supplied at the entry point, which is always sufficient),
  so every definition is structural and computable by `rfl`/`decide`.
-/

namespace SwallowJson

/-! ## The external streaming decoder, modelled at its interface -/

/-- Lexical/IO errors raised by the underlying `encoding/json` tokenizer or
value decoder.  `eof` models `io.EOF` (message "EOF"); `badInput` models a
`*json.SyntaxError` with its message. -/
inductive LexErr where
  | eof
  | badInput (msg : String)
deriving DecidableEq

/-- Tokens as returned by `json.Decoder.Token`: delimiters, strings, numbers
(`float64`, modelled exactly as rationals), booleans and null.  Colons and
commas are skipped by `Token` and never surfaced. -/
inductive Tok where
  | delim (c : Char)
  | str (s : String)
  | num (q : Rat)
  | boolTok (b : Bool)
  | nullTok
deriving DecidableEq

/-- The raw input as seen through the streaming decoder: a sequence of token
results.  An `Except.error` entry is the lexical error the tokenizer raises
when it first reaches that point of the input; entries after it are never
examined. -/
abbrev Stream := List (Except LexErr Tok)

/-- Model of `dec.Token()`: pop the next token result; at end of input the
tokenizer returns `io.EOF`. -/
def decToken : Stream → Except LexErr (Tok × Stream)
  | [] => .error .eof
  | .error e :: _ => .error e
  | .ok t :: rest => .ok (t, rest)

/-- Model of `dec.More()`: true iff peeking at the next token result yields a
token (no error, not end of input) that is not a close delimiter. -/
def decMore : Stream → Bool
  | .ok t :: _ =>
    if t = .delim '}' then false else if t = .delim ']' then false else true
  | _ => false

/-! ## Decoded generic JSON values (`var v interface{}; dec.Decode(&v)`) -/

/-- A decoded generic JSON value, as `encoding/json` produces for an
`interface{}` destination: `nil`, `bool`, `float64` (kept exact as `Rat`),
`string`, `[]interface{}`, `map[string]interface{}` (represented as an
association list with later duplicate keys overwriting earlier ones, which is
Go map assignment semantics). -/
inductive JVal where
  | null
  | bool (b : Bool)
  | num (q : Rat)
  | str (s : String)
  | arr (xs : List JVal)
  | obj (kvs : List (String × JVal))

/-- Insert-or-overwrite for association lists with string keys: the model of
assignment into a Go map. -/
def upsert {α : Type} : List (String × α) → String → α → List (String × α)
  | [], k, v => [(k, v)]
  | (k', v') :: rest, k, v =>
    if k' = k then (k, v) :: rest else (k', v') :: upsert rest k v

/-- Lookup in an association list with string keys: the model of indexing a
Go map. -/
def lookupTab {α : Type} (l : List (String × α)) (k : String) : Option α :=
  (l.find? (fun p => decide (p.1 = k))).map Prod.snd

/-- Parsing modes for the generic value decoder: a whole value, the remaining
fields of an object being decoded (accumulator holds fields seen so far), or
the remaining elements of an array (accumulator reversed). -/
inductive PMode where
  | value
  | objFields (acc : List (String × JVal))
  | arrElems (acc : List JVal)

/-- Model of `dec.Decode(&v)` with `var v interface{}`: consume one complete
JSON value from the stream and return it, or the tokenizer's error.  Fuel
decreases by one on every call; `stream.length + 1` is always enough. -/
def parseV : Nat → PMode → Stream → Except LexErr (JVal × Stream)
  | 0, _, _ => .error .eof
  | fuel+1, .value, st =>
    match decToken st with
    | .error e => .error e
    | .ok (t, st1) =>
      match t with
      | .delim c =>
        if c = '{' then parseV fuel (.objFields []) st1
        else if c = '[' then parseV fuel (.arrElems []) st1
        else .error (.badInput "unexpected delimiter")
      | .str s => .ok (.str s, st1)
      | .num q => .ok (.num q, st1)
      | .boolTok b => .ok (.bool b, st1)
      | .nullTok => .ok (.null, st1)
  | fuel+1, .objFields acc, st =>
    match decToken st with
    | .error e => .error e
    | .ok (t, st1) =>
      if t = .delim '}' then .ok (.obj acc, st1)
      else
        match t with
        | .str k =>
          match parseV fuel .value st1 with
          | .error e => .error e
          | .ok (v, st2) => parseV fuel (.objFields (upsert acc k v)) st2
        | _ => .error (.badInput "invalid object key")
  | fuel+1, .arrElems acc, st =>
    match decToken st with
    | .error e => .error e
    | .ok (t, st1) =>
      if t = .delim ']' then .ok (.arr acc.reverse, st1)
      else
        match parseV fuel .value st with
        | .error e => .error e
        | .ok (v, st2) => parseV fuel (.arrElems (v :: acc)) st2

/-! ## The reflection model: types, values, struct fields -/

/-- The fragment of Go types the decoder inspects: the scalar kinds produced
by generic decoding, `interface{}`, map types (with key and value types),
slice types and a catch-all for other named types. -/
inductive Ty where
  | str
  | int
  | float
  | bool
  | iface
  | map (key : Ty) (val : Ty)
  | slice (elem : Ty)
  | named (n : String)
deriving DecidableEq

/-- Runtime Go values stored in struct fields: scalars, an `interface{}`
holding a decoded generic value, maps (`none` is a nil map) and slices. -/
inductive GoVal where
  | str (s : String)
  | int (n : Int)
  | float (q : Rat)
  | bool (b : Bool)
  | iface (v : JVal)
  | map (entries : Option (List (String × GoVal)))
  | slice (xs : List GoVal)

/-- Go numeric conversion `float64 → int`: truncation toward zero. -/
def ratTrunc (q : Rat) : Int :=
  Int.tdiv q.num (q.den : Int)

/-- Model of `reflect.Value.Convert` applied to the `reflect.ValueOf` of a
decoded generic value, at a destination type.  `none` models the conversion
panic (including the `reflect.ValueOf(nil)` invalid-value panic for a decoded
JSON null, which Go hits before any conversion). -/
def convert : JVal → Ty → Option GoVal
  | .null, _ => none
  | v, .iface => some (.iface v)
  | .str s, .str => some (.str s)
  | .num q, .float => some (.float q)
  | .num q, .int => some (.int (ratTrunc q))
  | .bool b, .bool => some (.bool b)
  | .arr xs, .slice .iface => some (.slice (xs.map GoVal.iface))
  | .obj kvs, .map .str .iface =>
    some (.map (some (kvs.map (fun kv => (kv.1, GoVal.iface kv.2)))))
  | _, _ => none

/-- A declared struct field: its Go name, the raw value of its `json` struct
tag (`""` when there is no tag, as `reflect.StructTag.Get` reports), its
declared type and its current value. -/
structure Field where
  name : String
  tag : String
  ty : Ty
  val : GoVal

instance : Inhabited Field := ⟨⟨"", "", .named "", .iface .null⟩⟩

/-- A struct value: its declared fields in declaration order, with their
current values. -/
structure StructVal where
  fields : List Field

/-- The `target interface{}` argument: a pointer to a struct, a pointer to
something else, or not a pointer at all (the description string only names
the irrelevant payload). -/
inductive Target where
  | ptrStruct (s : StructVal)
  | ptrOther (desc : String)
  | nonPtr (desc : String)

/-- The field at an index (default-filled out of range, like the zero
`reflect.Value`). -/
def fieldAt (s : StructVal) (i : Nat) : Field :=
  (s.fields[i]?).getD default

/-- Current value of the field at an index. -/
def valAt (s : StructVal) (i : Nat) : GoVal := (fieldAt s i).val

/-- Declared type of the field at an index. -/
def tyAt (s : StructVal) (i : Nat) : Ty := (fieldAt s i).ty

/-- Model of `me.Field(i).Set(gv)`: replace the value of field `i`. -/
def setFieldVal (s : StructVal) (i : Nat) (gv : GoVal) : StructVal :=
  ⟨s.fields.set i { fieldAt s i with val := gv }⟩

/-- The entries of the map stored in field `i` (`none` when the map is nil,
mirroring `spillInto.IsNil()`). -/
def spillEntries (s : StructVal) (i : Nat) : Option (List (String × GoVal)) :=
  match valAt s i with
  | .map m => m
  | _ => none

/-- Lookup of a key in the map stored in field `i`. -/
def spillLookup (s : StructVal) (i : Nat) (k : String) : Option GoVal :=
  (spillEntries s i).bind (fun es => lookupTab es k)

/-- Go exported-identifier test, deciding `reflect.Value.CanSet` for a field
of an addressable struct. -/
def isExported (name : String) : Bool :=
  match name.data with
  | [] => false
  | c :: _ => c.isUpper

/-! ## Wire-name lookup table (`fieldsLookup` in the source) -/

/-- First comma-separated segment of a tag: `strings.Split(tag, ",")[0]`. -/
def firstSegment (tag : String) : String :=
  ⟨tag.data.takeWhile (fun c => decide (c ≠ ','))⟩

/-- The wire key under which a declared field participates in direct
matching: the first segment of its `json` tag when a tag is present (`none`
when that segment is the exclusion sentinel `-`), otherwise the field's own
name. -/
def wireName (f : Field) : Option String :=
  if f.tag = "" then some f.name
  else if firstSegment f.tag = "-" then none
  else some (firstSegment f.tag)

/-- The loop of `decode.go` lines 100-111, building the wire-key table by
iterating declared fields in declaration order and inserting into a Go map
(later duplicate wire names overwrite earlier ones). -/
def fieldsLookupAux : Nat → List Field → List (String × Nat) → List (String × Nat)
  | _, [], acc => acc
  | i, f :: rest, acc =>
    fieldsLookupAux (i+1) rest
      (match wireName f with
       | some k => upsert acc k i
       | none => acc)

/-- The wire-key lookup table of a field list. -/
def fieldsLookup (fs : List Field) : List (String × Nat) :=
  fieldsLookupAux 0 fs []

/-! ## Errors, printed output, outcomes -/

/-- The decode errors: the package's own error values (messages below) plus
`bubbled` for errors of the underlying tokenizer/value decoder returned
unchanged. -/
inductive DErr where
  | givenNonStringKey
  | malformedJSON
  | missingSpilloverField
  | notGivenMutable
  | notGivenStruct
  | notStructHolder
  | spillNotRightMap
  | unsetableSpilloverField
  | bubbled (e : LexErr)
deriving DecidableEq

/-- Rendered message of a tokenizer error (`io.EOF` renders as "EOF"). -/
def lexErrMessage : LexErr → String
  | .eof => "EOF"
  | .badInput msg => msg

/-- Rendered error messages: the `errors.New` strings of `decode.go` lines
30-37 for the package's own errors, and the native message for bubbled
errors. -/
def errMessage : DErr → String
  | .givenNonStringKey => "spillover: given object with non-string key"
  | .malformedJSON => "spillover: given malformed JSON"
  | .missingSpilloverField => "spillover: target struct missing specified spillover field"
  | .notGivenMutable => "spillover: not given something which we can assign to"
  | .notGivenStruct => "spillover: not given a struct in the raw stream"
  | .notStructHolder => "spillover: holder is not a struct"
  | .spillNotRightMap => "spillover: target\x27s spillover field is not a map[string]interface\x7b\x7d"
  | .unsetableSpilloverField => "spillover: target struct\x27s spillover field not assignable"
  | .bubbled e => lexErrMessage e

/-- One `fmt.Printf("Expected %q got %q\n", expect, t)` event on standard
output. -/
structure PrintEvent where
  expected : Char
  got : Tok
deriving DecidableEq

/-- The overall outcome of a call: normal return of the mutated struct,
an error return, or a reflect panic. -/
inductive Outcome where
  | ok (s : StructVal)
  | err (e : DErr)
  | panicked

/-- A call's observable results: its outcome and what it printed to standard
output. -/
structure RunResult where
  outcome : Outcome
  stdout : List PrintEvent

/-- `swallowRuneToken` from `decode.go` lines 39-49: read a token, bubble a
read error unchanged, succeed when it is the expected delimiter, otherwise
print the expected/actual pair to standard output and return `failExpect`. -/
def swallowRuneToken (st : Stream) (expect : Char) (failExpect : DErr) :
    Except DErr Stream × List PrintEvent :=
  match decToken st with
  | .error e => (.error (.bubbled e), [])
  | .ok (t, rest) =>
    if t = .delim expect then (.ok rest, [])
    else (.error failExpect, [⟨expect, t⟩])

/-! ## The key/value loop -/

/-- Result of the key/value loop: the mutated struct plus the unconsumed
stream, an error, or a reflect panic. -/
inductive LoopRes where
  | ok (s : StructVal) (rest : Stream)
  | err (e : DErr)
  | panicked

/-- `decode.go` lines 140-142: if the spillover map is nil, set it to a
freshly made empty map (`reflect.MakeMap`); otherwise leave it alone. -/
def spillInit (s : StructVal) (spillIdx : Nat) : StructVal :=
  if (spillEntries s spillIdx).isNone
  then setFieldVal s spillIdx (.map (some [])) else s

/-- `decode.go` lines 139-143: ensure the spillover map exists, then
`SetMapIndex` the converted value under the key. -/
def spillInsert (s : StructVal) (spillIdx : Nat) (k : String) (gv : GoVal) : StructVal :=
  setFieldVal (spillInit s spillIdx) spillIdx
    (.map (some (upsert ((spillEntries (spillInit s spillIdx) spillIdx).getD []) k gv)))

/-- One iteration's routing and assignment, `decode.go` lines 134-144: look
the key up in the wire table; on a hit, `Convert` the decoded value to the
field's declared type and `Set` the field; on a miss, create the spillover
map if it is nil, then `Convert` to the map's value type and insert under the
key.  `none` is the `Convert` panic. -/
def applyOne (tab : List (String × Nat)) (spillIdx : Nat) (spillValueType : Ty)
    (s : StructVal) (kv : String × JVal) : Option StructVal :=
  match lookupTab tab kv.1 with
  | some i =>
    match convert kv.2 (tyAt s i) with
    | none => none
    | some gv => some (setFieldVal s i gv)
  | none =>
    match convert kv.2 spillValueType with
    | none => none
    | some gv => some (spillInsert s spillIdx kv.1 gv)

/-- The `for dec.More()` loop of `decode.go` lines 117-145: read a key token
(bubbling read errors; a non-string key token is `ErrGivenNonStringKey`),
decode the pending value into a generic `interface{}` (bubbling decode
errors), and route it via `applyOne`. -/
def decodeLoop : Nat → List (String × Nat) → Nat → Ty → StructVal → Stream → LoopRes
  | 0, _, _, _, _, _ => .err (.bubbled .eof)
  | fuel+1, tab, spillIdx, spillValueType, s, st =>
    if decMore st then
      match decToken st with
      | .error e => .err (.bubbled e)
      | .ok (keyTok, st1) =>
        match keyTok with
        | .str key =>
          match parseV fuel .value st1 with
          | .error e => .err (.bubbled e)
          | .ok (v, st2) =>
            match applyOne tab spillIdx spillValueType s (key, v) with
            | none => .panicked
            | some s2 => decodeLoop fuel tab spillIdx spillValueType s2 st2
        | _ => .err .givenNonStringKey
    else .ok s st

/-- `UnmarshalWith` from `decode.go` lines 62-151: the validation chain
(pointer, struct, spillover field present, string-keyed map, settable), the
wire-table construction, then open-brace, key/value loop, close-brace. -/
def unmarshalWith (target : Target) (spilloverName : String) (raw : Stream) : RunResult :=
  match target with
  | .nonPtr _ => ⟨.err .notGivenMutable, []⟩
  | .ptrOther _ => ⟨.err .notStructHolder, []⟩
  | .ptrStruct me =>
    match me.fields.findIdx? (fun f => decide (f.name = spilloverName)) with
    | none => ⟨.err .missingSpilloverField, []⟩
    | some spillIdx =>
      match (fieldAt me spillIdx).ty with
      | .map keyTy spillValueType =>
        if keyTy = .str then
          if isExported (fieldAt me spillIdx).name then
            match swallowRuneToken raw '{' .notGivenStruct with
            | (.error e, prints) => ⟨.err e, prints⟩
            | (.ok st1, _) =>
              match decodeLoop (raw.length + 1) (fieldsLookup me.fields)
                      spillIdx spillValueType me st1 with
              | .err e => ⟨.err e, []⟩
              | .panicked => ⟨.panicked, []⟩
              | .ok s' rest =>
                match swallowRuneToken rest '}' .malformedJSON with
                | (.error e, prints) => ⟨.err e, prints⟩
                | (.ok _, _) => ⟨.ok s', []⟩
          else ⟨.err .unsetableSpilloverField, []⟩
        else ⟨.err .spillNotRightMap, []⟩
      | _ => ⟨.err .spillNotRightMap, []⟩

/-! ## Ghost definitions used only to state and relate properties -/

/-- The key/value pairs the loop would consume from a stream position, as a
pure parse that mirrors `decodeLoop`'s stream consumption exactly (same fuel
discipline) but touches no struct. -/
def streamPairs : Nat → Stream → Option (List (String × JVal) × Stream)
  | 0, _ => none
  | fuel+1, st =>
    if decMore st then
      match decToken st with
      | .error _ => none
      | .ok (.str key, st1) =>
        match parseV fuel .value st1 with
        | .error _ => none
        | .ok (v, st2) =>
          match streamPairs fuel st2 with
          | none => none
          | some (kvs, rest) => some ((key, v) :: kvs, rest)
      | .ok (_, _) => none
    else some ([], st)

/-- The key/value pairs of the top-level object of a raw stream, read the way
`unmarshalWith` reads them (open brace, then the loop), with the unconsumed
remainder. -/
def objectPairs (raw : Stream) : Option (List (String × JVal) × Stream) :=
  match decToken raw with
  | .ok (.delim '{', st1) => streamPairs (raw.length + 1) st1
  | _ => none

/-- Folding `applyOne` over a list of key/value pairs in order: the pure
counterpart of the loop's mutation. -/
def applyAll (tab : List (String × Nat)) (spillIdx : Nat) (spillValueType : Ty) :
    StructVal → List (String × JVal) → Option StructVal
  | s, [] => some s
  | s, kv :: rest =>
    match applyOne tab spillIdx spillValueType s kv with
    | none => none
    | some s1 => applyAll tab spillIdx spillValueType s1 rest

/-- The wire keys present in a pair list. -/
def keysOf (kvs : List (String × JVal)) : List String := kvs.map Prod.fst

/-- The last value paired with a key (later duplicates overwrite earlier
ones, as both the field assignment and the map insert do). -/
def lastVal (kvs : List (String × JVal)) (k : String) : Option JVal :=
  (kvs.reverse.find? (fun p => decide (p.1 = k))).map Prod.snd

/-- The index of the last declared field whose wire name is the given key
(the binding a sequence of Go map inserts leaves in the table). -/
def lastWireIdx : List Field → String → Option Nat
  | [], _ => none
  | f :: rest, k =>
    match lastWireIdx rest k with
    | some j => some (j + 1)
    | none => if wireName f = some k then some 0 else none

/-- Value type of a map type (identity elsewhere; only used after the
validation established the type is a map). -/
def mapValTy : Ty → Ty
  | .map _ v => v
  | t => t

/-- The spillover field's index as the validation resolves it (`0` out of a
successful run is never used). -/
def spillIdxOf (s : StructVal) (name : String) : Nat :=
  (s.fields.findIdx? (fun f => decide (f.name = name))).getD 0

/-- Follows the spec's words (§4.3 decode step), for comparison with the
source's behaviour: decode the pending value directly into a freshly typed
slot of the destination type, as `encoding/json` would decode into that
type — in particular a fractional JSON number does not fit an integer slot
(`none` models the returned `*json.UnmarshalTypeError`), rather than being
truncated by a post-hoc conversion. -/
def directTypedDecode : Ty → JVal → Option GoVal
  | .iface, v => some (.iface v)
  | .str, .str s => some (.str s)
  | .int, .num q => if q.den = 1 then some (.int q.num) else none
  | .float, .num q => some (.float q)
  | .bool, .bool b => some (.bool b)
  | _, _ => none

/-! ## Concrete targets and streams for witnesses and counterexamples -/

/-- The running example target shape (`foo1` in the repository's tests):
`Foo string json:"foo"`, `Bar int json:"bar"`,
`Rest map[string]interface json:"-"`, zero-valued, `Rest` nil. -/
def demoFields : List Field :=
  [⟨"Foo", "foo", .str, .str ""⟩,
   ⟨"Bar", "bar", .int, .int 0⟩,
   ⟨"Rest", "-", .map .str .iface, .map none⟩]

/-- The demo struct value. -/
def demoStruct : StructVal := ⟨demoFields⟩

/-- A pointer to the demo struct. -/
def demoTarget : Target := .ptrStruct demoStruct

/-- A target whose spillover map has `int` values (`foo4` in the tests):
`Foo string json:"foo"`, `Rest map[string]int json:"-"`. -/
def intSpillFields : List Field :=
  [⟨"Foo", "foo", .str, .str ""⟩,
   ⟨"Rest", "-", .map .str .int, .map none⟩]

/-- A pointer to the int-spillover struct. -/
def intSpillTarget : Target := .ptrStruct ⟨intSpillFields⟩

/-- Token stream of the raw bytes `[]`. -/
def rawBracketArray : Stream := [.ok (.delim '['), .ok (.delim ']')]

/-- Token stream of the truncated raw byte `{`: the open delimiter, then the
tokenizer reports end of input. -/
def rawTruncated : Stream := [.ok (.delim '{')]

/-- Token stream of `{"foo":"alpha","bar":42,"baz":"zed"}`. -/
def rawABC : Stream :=
  [.ok (.delim '{'), .ok (.str "foo"), .ok (.str "alpha"),
   .ok (.str "bar"), .ok (.num (mkRat 42 1)), .ok (.str "baz"), .ok (.str "zed"),
   .ok (.delim '}')]

/-- Token stream of `{"bar":4.5}`. -/
def rawBar45 : Stream :=
  [.ok (.delim '{'), .ok (.str "bar"), .ok (.num (mkRat 9 2)), .ok (.delim '}')]

/-- Token stream of `{"more":"wibble"}`. -/
def rawWibble : Stream :=
  [.ok (.delim '{'), .ok (.str "more"), .ok (.str "wibble"), .ok (.delim '}')]

/-- Token stream of `{}`. -/
def rawEmptyObj : Stream := [.ok (.delim '{'), .ok (.delim '}')]

/-- Token stream of `{"new":1}`. -/
def rawMerge : Stream :=
  [.ok (.delim '{'), .ok (.str "new"), .ok (.num (mkRat 1 1)), .ok (.delim '}')]

/-- The demo struct after decoding `rawABC`: `Foo` and `Bar` populated, the
unmatched key `baz` in the spillover map. -/
def demoResultABC : StructVal :=
  ⟨[⟨"Foo", "foo", .str, .str "alpha"⟩,
    ⟨"Bar", "bar", .int, .int 42⟩,
    ⟨"Rest", "-", .map .str .iface, .map (some [("baz", .iface (.str "zed"))])⟩]⟩

/-- The demo struct after decoding `rawBar45`: the fractional 4.5 was
truncated into the int field `Bar`. -/
def demoResult45 : StructVal :=
  ⟨[⟨"Foo", "foo", .str, .str ""⟩,
    ⟨"Bar", "bar", .int, .int 4⟩,
    ⟨"Rest", "-", .map .str .iface, .map none⟩]⟩

/-- A demo struct whose spillover map already holds an unrelated entry. -/
def mergeStruct : StructVal :=
  ⟨[⟨"Foo", "foo", .str, .str ""⟩,
    ⟨"Bar", "bar", .int, .int 0⟩,
    ⟨"Rest", "-", .map .str .iface, .map (some [("keep", .iface (.str "old"))])⟩]⟩

/-- `mergeStruct` after decoding `rawMerge`: the pre-existing entry is still
there and the new unmatched key was merged in additively. -/
def mergeResult : StructVal :=
  ⟨[⟨"Foo", "foo", .str, .str ""⟩,
    ⟨"Bar", "bar", .int, .int 0⟩,
    ⟨"Rest", "-", .map .str .iface,
     .map (some [("keep", .iface (.str "old")), ("new", .iface (.num (mkRat 1 1)))])⟩]⟩

/-! ## Association list and struct-field lemmas -/
theorem lookupTab_cons_self {α : Type} (k : String) (v : α) (l : List (String × α)) :
    lookupTab ((k, v) :: l) k = some v := by
  simp only [lookupTab]
  rw [List.find?_cons_of_pos _ (by simp)]
  rfl

theorem lookupTab_cons_ne {α : Type} (k k' : String) (v : α) (l : List (String × α))
    (h : k ≠ k') : lookupTab ((k, v) :: l) k' = lookupTab l k' := by
  simp only [lookupTab]
  rw [List.find?_cons_of_neg _ (by simp [h])]

theorem lookupTab_upsert {α : Type} (l : List (String × α)) (k k' : String) (v : α) :
    lookupTab (upsert l k v) k' = if k' = k then some v else lookupTab l k' := by
  induction l with
  | nil =>
    by_cases h : k' = k
    · subst h
      simp [upsert, lookupTab_cons_self]
    · simp [upsert, h, lookupTab_cons_ne k k' v [] (Ne.symm h)]
  | cons p rest ih =>
    obtain ⟨k0, v0⟩ := p
    by_cases h0 : k0 = k
    · subst h0
      by_cases h : k' = k0
      · subst h
        simp [upsert, lookupTab_cons_self]
      · simp [upsert, h, lookupTab_cons_ne k0 k' v rest (Ne.symm h),
              lookupTab_cons_ne k0 k' v0 rest (Ne.symm h)]
    · by_cases h1 : k0 = k'
      · subst h1
        simp [upsert, h0, lookupTab_cons_self,
              show ¬(k0 = k) from h0]
      · simp [upsert, h0, lookupTab_cons_ne k0 k' v0 (upsert rest k v) h1,
              lookupTab_cons_ne k0 k' v0 rest h1, ih]

theorem length_setFieldVal (s : StructVal) (i : Nat) (gv : GoVal) :
    (setFieldVal s i gv).fields.length = s.fields.length := by
  simp [setFieldVal]

theorem tyAt_setFieldVal (s : StructVal) (i j : Nat) (gv : GoVal) :
    tyAt (setFieldVal s i gv) j = tyAt s j := by
  by_cases h : i = j
  · subst h
    by_cases hlt : i < s.fields.length
    · simp [tyAt, fieldAt, setFieldVal, List.getElem?_set_self hlt]
    · rw [setFieldVal, show s.fields.set i _ = s.fields from
        List.set_eq_of_length_le (by omega)]
  · simp [tyAt, fieldAt, setFieldVal, List.getElem?_set_ne h]

theorem valAt_setFieldVal_self (s : StructVal) (i : Nat) (gv : GoVal)
    (h : i < s.fields.length) : valAt (setFieldVal s i gv) i = gv := by
  simp [valAt, fieldAt, setFieldVal, List.getElem?_set_self h]

theorem valAt_setFieldVal_ne (s : StructVal) (i j : Nat) (gv : GoVal) (h : i ≠ j) :
    valAt (setFieldVal s i gv) j = valAt s j := by
  simp [valAt, fieldAt, setFieldVal, List.getElem?_set_ne h]

theorem findIdx?_lt_length {α : Type} (p : α → Bool) (l : List α) (i j : Nat)
    (h : l.findIdx? p j = some i) : i < j + l.length := by
  induction l generalizing i j with
  | nil => simp [List.findIdx?] at h
  | cons a rest ih =>
    rw [List.findIdx?_cons] at h
    by_cases hp : p a
    · rw [if_pos hp] at h
      injection h with h
      subst h
      simp only [List.length_cons]
      omega
    · rw [if_neg hp] at h
      have := ih i (j+1) h
      simp only [List.length_cons]
      omega

/-! ## Characterization of the wire-key table -/

theorem lookupTab_fieldsLookupAux (fs : List Field) (i : Nat)
    (acc : List (String × Nat)) (k : String) :
    lookupTab (fieldsLookupAux i fs acc) k =
      (lastWireIdx fs k).elim (lookupTab acc k) (fun j => some (i + j)) := by
  induction fs generalizing i acc with
  | nil => rfl
  | cons f rest ih =>
    rw [show fieldsLookupAux i (f :: rest) acc = fieldsLookupAux (i+1) rest
          (match wireName f with | some k' => upsert acc k' i | none => acc) from rfl,
        ih]
    cases hrest : lastWireIdx rest k with
    | some j =>
      simp only [lastWireIdx, hrest, Option.elim]
      congr 1
      omega
    | none =>
      cases hw : wireName f with
      | some k' =>
        simp only [lastWireIdx, hrest, hw, Option.elim]
        rw [lookupTab_upsert]
        by_cases hk : k = k'
        · subst hk
          simp
        · simp [hk, Ne.symm hk]
      | none => simp [lastWireIdx, hrest, hw]

theorem lookupTab_fieldsLookup (fs : List Field) (k : String) :
    lookupTab (fieldsLookup fs) k = lastWireIdx fs k := by
  rw [fieldsLookup, lookupTab_fieldsLookupAux]
  cases lastWireIdx fs k <;> simp [lookupTab]

theorem lastWireIdx_none_iff (fs : List Field) (k : String) :
    lastWireIdx fs k = none ↔
      ∀ (j : Nat) (f' : Field), fs[j]? = some f' → wireName f' ≠ some k := by
  induction fs with
  | nil => simp [lastWireIdx]
  | cons f rest ih =>
    constructor
    · intro h j f' hget hw
      simp only [lastWireIdx] at h
      cases hrest : lastWireIdx rest k with
      | some jj => rw [hrest] at h; cases h
      | none =>
        rw [hrest] at h
        by_cases hwf : wireName f = some k
        · rw [if_pos hwf] at h; cases h
        · cases j with
          | zero =>
            rw [List.getElem?_cons_zero] at hget
            injection hget with h'
            subst h'
            exact hwf hw
          | succ j' =>
            rw [List.getElem?_cons_succ] at hget
            exact (ih.mp hrest) j' f' hget hw
    · intro hall
      simp only [lastWireIdx]
      have hrest : lastWireIdx rest k = none :=
        ih.mpr (fun j f' hget hw =>
          hall (j+1) f' (by rw [List.getElem?_cons_succ]; exact hget) hw)
      rw [hrest, if_neg (hall 0 f (by rw [List.getElem?_cons_zero]))]

theorem lastWireIdx_some_iff (fs : List Field) (k : String) (i : Nat) :
    lastWireIdx fs k = some i ↔
      ((∃ f, fs[i]? = some f ∧ wireName f = some k) ∧
        ∀ (j : Nat) (f' : Field), i < j → fs[j]? = some f' → wireName f' ≠ some k) := by
  induction fs generalizing i with
  | nil => simp [lastWireIdx]
  | cons f rest ih =>
    constructor
    · intro h
      simp only [lastWireIdx] at h
      cases hrest : lastWireIdx rest k with
      | some j =>
        rw [hrest] at h
        injection h with h
        subst h
        obtain ⟨⟨fr, hget, hw⟩, hafter⟩ := (ih j).mp hrest
        refine ⟨⟨fr, by rw [List.getElem?_cons_succ]; exact hget, hw⟩, ?_⟩
        intro j' f' hlt hget' hw'
        cases j' with
        | zero => omega
        | succ j'' =>
          rw [List.getElem?_cons_succ] at hget'
          exact hafter j'' f' (by omega) hget' hw'
      | none =>
        rw [hrest] at h
        by_cases hwf : wireName f = some k
        · rw [if_pos hwf] at h
          injection h with h
          subst h
          refine ⟨⟨f, by rw [List.getElem?_cons_zero], hwf⟩, ?_⟩
          intro j f' hlt hget hw'
          cases j with
          | zero => omega
          | succ j' =>
            rw [List.getElem?_cons_succ] at hget
            exact ((lastWireIdx_none_iff rest k).mp hrest) j' f' hget hw'
        · rw [if_neg hwf] at h; cases h
    · rintro ⟨⟨fi, hget, hwi⟩, hafter⟩
      simp only [lastWireIdx]
      cases hrest : lastWireIdx rest k with
      | some j =>
        obtain ⟨⟨fr, hgetr, hwr⟩, hafterr⟩ := (ih j).mp hrest
        cases i with
        | zero =>
          exact absurd hwr (hafter (j+1) fr (by omega)
            (by rw [List.getElem?_cons_succ]; exact hgetr))
        | succ i' =>
          have heq : lastWireIdx rest k = some i' := (ih i').mpr
            ⟨⟨fi, by rw [List.getElem?_cons_succ] at hget; exact hget, hwi⟩,
             fun j' f' hlt hget' hw' =>
               hafter (j'+1) f' (by omega)
                 (by rw [List.getElem?_cons_succ]; exact hget') hw'⟩
          rw [hrest] at heq
          injection heq with h'
          rw [h']
      | none =>
        cases i with
        | zero =>
          rw [List.getElem?_cons_zero] at hget
          injection hget with h'
          subst h'
          rw [if_pos hwi]
        | succ i' =>
          rw [List.getElem?_cons_succ] at hget
          exact absurd hwi (((lastWireIdx_none_iff rest k).mp hrest) i' fi hget)
/-! ## Stream and spillover-map helper lemmas -/

theorem decToken_ok_iff (st : Stream) (t : Tok) (rest : Stream) :
    decToken st = .ok (t, rest) ↔ st = .ok t :: rest := by
  cases st with
  | nil => simp [decToken]
  | cons x st0 =>
    cases x with
    | error e => simp [decToken]
    | ok t0 => simp [decToken, Prod.ext_iff, and_comm]

theorem keysOf_cons (kv : String × JVal) (kvs : List (String × JVal)) :
    keysOf (kv :: kvs) = kv.1 :: keysOf kvs := rfl

theorem keysOf_append (xs ys : List (String × JVal)) :
    keysOf (xs ++ ys) = keysOf xs ++ keysOf ys := by
  simp [keysOf]

theorem lastVal_append_single (xs : List (String × JVal)) (p : String × JVal)
    (k : String) :
    lastVal (xs ++ [p]) k = if p.1 = k then some p.2 else lastVal xs k := by
  simp only [lastVal, List.reverse_append, List.reverse_cons, List.reverse_nil,
    List.nil_append, List.cons_append]
  by_cases h : p.1 = k
  · rw [List.find?_cons_of_pos _ (by simp [h]), if_pos h]
    rfl
  · rw [List.find?_cons_of_neg _ (by simp [h]), if_neg h]

theorem spillEntries_congr (s s' : StructVal) (i : Nat)
    (h : valAt s' i = valAt s i) : spillEntries s' i = spillEntries s i := by
  simp [spillEntries, h]

theorem spillEntries_setFieldVal_ne (s : StructVal) (i j : Nat) (gv : GoVal)
    (h : i ≠ j) : spillEntries (setFieldVal s i gv) j = spillEntries s j := by
  simp [spillEntries, valAt_setFieldVal_ne s i j gv h]

theorem spillLookup_setFieldVal_ne (s : StructVal) (i j : Nat) (gv : GoVal)
    (k : String) (h : i ≠ j) :
    spillLookup (setFieldVal s i gv) j k = spillLookup s j k := by
  simp [spillLookup, spillEntries_setFieldVal_ne s i j gv h]

theorem length_spillInit (s : StructVal) (sp : Nat) :
    (spillInit s sp).fields.length = s.fields.length := by
  rw [spillInit]
  split <;> simp [length_setFieldVal]

theorem tyAt_spillInit (s : StructVal) (sp j : Nat) :
    tyAt (spillInit s sp) j = tyAt s j := by
  rw [spillInit]
  split <;> simp [tyAt_setFieldVal]

theorem valAt_spillInit_ne (s : StructVal) (sp j : Nat) (h : sp ≠ j) :
    valAt (spillInit s sp) j = valAt s j := by
  rw [spillInit]
  split
  · exact valAt_setFieldVal_ne s sp j _ h
  · rfl

theorem spillEntries_spillInit (s : StructVal) (sp : Nat)
    (hsp : sp < s.fields.length) :
    spillEntries (spillInit s sp) sp = some ((spillEntries s sp).getD []) := by
  rw [spillInit]
  cases hE : spillEntries s sp with
  | none =>
    simp only [hE, Option.isNone_none, if_pos]
    simp [spillEntries, valAt_setFieldVal_self s sp _ hsp]
  | some es => simp [hE]

theorem length_spillInsert (s : StructVal) (sp : Nat) (k : String) (gv : GoVal) :
    (spillInsert s sp k gv).fields.length = s.fields.length := by
  rw [spillInsert, length_setFieldVal, length_spillInit]

theorem tyAt_spillInsert (s : StructVal) (sp : Nat) (k : String) (gv : GoVal)
    (j : Nat) : tyAt (spillInsert s sp k gv) j = tyAt s j := by
  rw [spillInsert, tyAt_setFieldVal, tyAt_spillInit]

theorem valAt_spillInsert_ne (s : StructVal) (sp : Nat) (k : String) (gv : GoVal)
    (j : Nat) (h : sp ≠ j) : valAt (spillInsert s sp k gv) j = valAt s j := by
  rw [spillInsert, valAt_setFieldVal_ne _ _ _ _ h, valAt_spillInit_ne s sp j h]

theorem spillEntries_setFieldVal_map (s : StructVal) (i : Nat)
    (m : Option (List (String × GoVal))) (h : i < s.fields.length) :
    spillEntries (setFieldVal s i (.map m)) i = m := by
  simp [spillEntries, valAt_setFieldVal_self s i _ h]

theorem spillEntries_spillInsert (s : StructVal) (sp : Nat) (k : String) (gv : GoVal)
    (hsp : sp < s.fields.length) :
    spillEntries (spillInsert s sp k gv) sp =
      some (upsert ((spillEntries s sp).getD []) k gv) := by
  have hlen : sp < (spillInit s sp).fields.length := by
    rw [length_spillInit]; exact hsp
  rw [spillInsert, spillEntries_setFieldVal_map _ _ _ hlen,
    spillEntries_spillInit s sp hsp]
  rfl

theorem spillLookup_spillInsert_self (s : StructVal) (sp : Nat) (k : String)
    (gv : GoVal) (hsp : sp < s.fields.length) :
    spillLookup (spillInsert s sp k gv) sp k = some gv := by
  simp [spillLookup, spillEntries_spillInsert s sp k gv hsp, lookupTab_upsert]

theorem spillLookup_spillInsert_ne (s : StructVal) (sp : Nat) (k k' : String)
    (gv : GoVal) (hsp : sp < s.fields.length) (h : k' ≠ k) :
    spillLookup (spillInsert s sp k gv) sp k' =
      lookupTab ((spillEntries s sp).getD []) k' := by
  simp [spillLookup, spillEntries_spillInsert s sp k gv hsp, lookupTab_upsert, h]

/-! ## Inversion and preservation lemmas for the routing step -/

theorem applyOne_matched (tab : List (String × Nat)) (sp : Nat) (ty : Ty)
    (s : StructVal) (kv : String × JVal) (s' : StructVal) (i : Nat)
    (hl : lookupTab tab kv.1 = some i) (h : applyOne tab sp ty s kv = some s') :
    ∃ gv, convert kv.2 (tyAt s i) = some gv ∧ s' = setFieldVal s i gv := by
  simp only [applyOne, hl] at h
  cases hc : convert kv.2 (tyAt s i) with
  | none => simp [hc] at h
  | some gv =>
    simp only [hc] at h
    injection h with h
    exact ⟨gv, rfl, h.symm⟩

theorem applyOne_unmatched (tab : List (String × Nat)) (sp : Nat) (ty : Ty)
    (s : StructVal) (kv : String × JVal) (s' : StructVal)
    (hl : lookupTab tab kv.1 = none) (h : applyOne tab sp ty s kv = some s') :
    ∃ gv, convert kv.2 ty = some gv ∧ s' = spillInsert s sp kv.1 gv := by
  simp only [applyOne, hl] at h
  cases hc : convert kv.2 ty with
  | none => simp [hc] at h
  | some gv =>
    simp only [hc] at h
    injection h with h
    exact ⟨gv, rfl, h.symm⟩

theorem length_applyOne (tab : List (String × Nat)) (sp : Nat) (ty : Ty)
    (s : StructVal) (kv : String × JVal) (s' : StructVal)
    (h : applyOne tab sp ty s kv = some s') :
    s'.fields.length = s.fields.length := by
  cases hl : lookupTab tab kv.1 with
  | some i =>
    obtain ⟨gv, -, rfl⟩ := applyOne_matched tab sp ty s kv s' i hl h
    exact length_setFieldVal s i gv
  | none =>
    obtain ⟨gv, -, rfl⟩ := applyOne_unmatched tab sp ty s kv s' hl h
    exact length_spillInsert s sp kv.1 gv

theorem tyAt_applyOne (tab : List (String × Nat)) (sp : Nat) (ty : Ty)
    (s : StructVal) (kv : String × JVal) (s' : StructVal) (j : Nat)
    (h : applyOne tab sp ty s kv = some s') : tyAt s' j = tyAt s j := by
  cases hl : lookupTab tab kv.1 with
  | some i =>
    obtain ⟨gv, -, rfl⟩ := applyOne_matched tab sp ty s kv s' i hl h
    exact tyAt_setFieldVal s i j gv
  | none =>
    obtain ⟨gv, -, rfl⟩ := applyOne_unmatched tab sp ty s kv s' hl h
    exact tyAt_spillInsert s sp kv.1 gv j

/-! ## Structural lemmas for the pure fold over key/value pairs -/

theorem applyAll_cons (tab : List (String × Nat)) (sp : Nat) (ty : Ty)
    (s : StructVal) (kv : String × JVal) (kvs : List (String × JVal)) :
    applyAll tab sp ty s (kv :: kvs) =
      match applyOne tab sp ty s kv with
      | none => none
      | some s1 => applyAll tab sp ty s1 kvs := rfl

theorem applyAll_append (tab : List (String × Nat)) (sp : Nat) (ty : Ty)
    (xs ys : List (String × JVal)) (s : StructVal) :
    applyAll tab sp ty s (xs ++ ys) =
      match applyAll tab sp ty s xs with
      | none => none
      | some m => applyAll tab sp ty m ys := by
  induction xs generalizing s with
  | nil => rfl
  | cons kv rest ih =>
    rw [List.cons_append, applyAll_cons, applyAll_cons]
    cases applyOne tab sp ty s kv with
    | none => rfl
    | some s1 => exact ih s1

theorem length_applyAll (tab : List (String × Nat)) (sp : Nat) (ty : Ty)
    (kvs : List (String × JVal)) : ∀ s s', applyAll tab sp ty s kvs = some s' →
    s'.fields.length = s.fields.length := by
  induction kvs with
  | nil =>
    intro s s' h
    injection h with h
    rw [← h]
  | cons kv rest ih =>
    intro s s' h
    rw [applyAll_cons] at h
    cases ha : applyOne tab sp ty s kv with
    | none => rw [ha] at h; cases h
    | some s1 =>
      rw [ha] at h
      rw [ih s1 s' h, length_applyOne tab sp ty s kv s1 ha]

theorem tyAt_applyAll (tab : List (String × Nat)) (sp : Nat) (ty : Ty)
    (kvs : List (String × JVal)) : ∀ s s' j, applyAll tab sp ty s kvs = some s' →
    tyAt s' j = tyAt s j := by
  induction kvs with
  | nil =>
    intro s s' j h
    injection h with h
    rw [← h]
  | cons kv rest ih =>
    intro s s' j h
    rw [applyAll_cons] at h
    cases ha : applyOne tab sp ty s kv with
    | none => rw [ha] at h; cases h
    | some s1 =>
      rw [ha] at h
      rw [ih s1 s' j h, tyAt_applyOne tab sp ty s kv s1 j ha]

theorem valAt_applyAll_frame (tab : List (String × Nat)) (sp : Nat) (ty : Ty)
    (kvs : List (String × JVal)) : ∀ s s', applyAll tab sp ty s kvs = some s' →
    ∀ i, i ≠ sp → (∀ k ∈ keysOf kvs, lookupTab tab k ≠ some i) →
    valAt s' i = valAt s i := by
  induction kvs with
  | nil =>
    intro s s' h i _ _
    injection h with h
    rw [← h]
  | cons kv rest ih =>
    intro s s' h i hisp hks
    rw [applyAll_cons] at h
    cases ha : applyOne tab sp ty s kv with
    | none => rw [ha] at h; cases h
    | some s1 =>
      rw [ha] at h
      have hrest : ∀ k ∈ keysOf rest, lookupTab tab k ≠ some i := by
        intro k hk
        exact hks k (by rw [keysOf_cons]; exact List.mem_cons_of_mem _ hk)
      rw [ih s1 s' h i hisp hrest]
      cases hl : lookupTab tab kv.1 with
      | some j =>
        obtain ⟨gv, -, rfl⟩ := applyOne_matched tab sp ty s kv s1 j hl ha
        have hji : j ≠ i := by
          intro hji
          exact (hks kv.1 (by rw [keysOf_cons]; exact List.mem_cons_self _ _)) (hji ▸ hl)
        exact valAt_setFieldVal_ne s j i gv hji
      | none =>
        obtain ⟨gv, -, rfl⟩ := applyOne_unmatched tab sp ty s kv s1 hl ha
        exact valAt_spillInsert_ne s sp kv.1 gv i (Ne.symm hisp)

theorem valAt_applyAll_spill_frame (tab : List (String × Nat)) (sp : Nat) (ty : Ty)
    (kvs : List (String × JVal)) : ∀ s s', applyAll tab sp ty s kvs = some s' →
    (∀ k ∈ keysOf kvs, ∃ j, lookupTab tab k = some j ∧ j ≠ sp) →
    valAt s' sp = valAt s sp := by
  induction kvs with
  | nil =>
    intro s s' h _
    injection h with h
    rw [← h]
  | cons kv rest ih =>
    intro s s' h hks
    rw [applyAll_cons] at h
    cases ha : applyOne tab sp ty s kv with
    | none => rw [ha] at h; cases h
    | some s1 =>
      rw [ha] at h
      have hrest : ∀ k ∈ keysOf rest, ∃ j, lookupTab tab k = some j ∧ j ≠ sp := by
        intro k hk
        exact hks k (by rw [keysOf_cons]; exact List.mem_cons_of_mem _ hk)
      rw [ih s1 s' h hrest]
      obtain ⟨j, hl, hj⟩ := hks kv.1 (by rw [keysOf_cons]; exact List.mem_cons_self _ _)
      obtain ⟨gv, -, rfl⟩ := applyOne_matched tab sp ty s kv s1 j hl ha
      exact valAt_setFieldVal_ne s j sp gv hj

theorem spillLookup_some_getD (s : StructVal) (sp : Nat) (k : String) (gv : GoVal)
    (h : spillLookup s sp k = some gv) :
    lookupTab ((spillEntries s sp).getD []) k = some gv := by
  rw [spillLookup] at h
  cases hE : spillEntries s sp with
  | none => rw [hE] at h; cases h
  | some es =>
    rw [hE] at h
    simpa using h

theorem applyAll_lastWrite (tab : List (String × Nat)) (sp : Nat) (ty : Ty)
    (s : StructVal)
    (hsp : sp < s.fields.length)
    (hinj : ∀ k1 k2 i, lookupTab tab k1 = some i → lookupTab tab k2 = some i → k1 = k2)
    (hbnd : ∀ k i, lookupTab tab k = some i → i < s.fields.length) :
    ∀ kvs s', applyAll tab sp ty s kvs = some s' →
      (∀ k ∈ keysOf kvs, lookupTab tab k ≠ some sp) →
      ∀ k v, k ∈ keysOf kvs → lastVal kvs k = some v →
        (match lookupTab tab k with
         | some i => ∃ gv, convert v (tyAt s i) = some gv ∧ valAt s' i = gv
         | none => ∃ gv, convert v ty = some gv ∧ spillLookup s' sp k = some gv) := by
  intro kvs
  induction kvs using List.reverseRecOn with
  | nil =>
    intro s' _ _ k v hk _
    simp [keysOf] at hk
  | append_singleton xs p ih =>
    intro s' happ hguard k v hk hlast
    rw [applyAll_append] at happ
    cases hmid : applyAll tab sp ty s xs with
    | none => rw [hmid] at happ; cases happ
    | some sm =>
      simp only [hmid] at happ
      rw [applyAll_cons] at happ
      have hone : applyOne tab sp ty sm p = some s' := by
        cases ha : applyOne tab sp ty sm p with
        | none => rw [ha] at happ; cases happ
        | some s1 =>
          rw [ha] at happ
          injection happ with happ
          exact congrArg some happ
      have hlenm : sm.fields.length = s.fields.length :=
        length_applyAll tab sp ty xs s sm hmid
      have hspm : sp < sm.fields.length := by rw [hlenm]; exact hsp
      have hguardxs : ∀ k ∈ keysOf xs, lookupTab tab k ≠ some sp := by
        intro k hkx
        exact hguard k (by rw [keysOf_append]; exact List.mem_append_left _ hkx)
      have hguardp : lookupTab tab p.1 ≠ some sp :=
        hguard p.1 (by rw [keysOf_append]; exact List.mem_append_right _ (by simp [keysOf]))
      rw [lastVal_append_single] at hlast
      by_cases hkp : p.1 = k
      · rw [if_pos hkp] at hlast
        injection hlast with hlast
        subst hlast
        cases hl : lookupTab tab k with
        | some i =>
          have hib : i < sm.fields.length := by rw [hlenm]; exact hbnd k i hl
          obtain ⟨gv, hc, rfl⟩ :=
            applyOne_matched tab sp ty sm p s' i (by rw [hkp]; exact hl) hone
          refine ⟨gv, ?_, valAt_setFieldVal_self sm i gv hib⟩
          rw [← tyAt_applyAll tab sp ty xs s sm i hmid]
          exact hc
        | none =>
          obtain ⟨gv, hc, rfl⟩ :=
            applyOne_unmatched tab sp ty sm p s' (by rw [hkp]; exact hl) hone
          refine ⟨gv, hc, ?_⟩
          rw [← hkp]
          exact spillLookup_spillInsert_self sm sp p.1 gv hspm
      · rw [if_neg hkp] at hlast
        have hkxs : k ∈ keysOf xs := by
          rw [keysOf_append] at hk
          rcases List.mem_append.mp hk with h | h
          · exact h
          · simp [keysOf] at h
            exact absurd h.symm hkp
        have iha := ih sm hmid hguardxs k v hkxs hlast
        cases hl : lookupTab tab k with
        | some i =>
          rw [hl] at iha
          obtain ⟨gv, hc, hval⟩ := iha
          refine ⟨gv, hc, ?_⟩
          cases hlp : lookupTab tab p.1 with
          | some j =>
            obtain ⟨gv', -, rfl⟩ := applyOne_matched tab sp ty sm p s' j hlp hone
            have hji : j ≠ i := fun hji => hkp (hinj p.1 k i (hji ▸ hlp) hl)
            rw [valAt_setFieldVal_ne sm j i gv' hji]
            exact hval
          | none =>
            obtain ⟨gv', -, rfl⟩ := applyOne_unmatched tab sp ty sm p s' hlp hone
            have hisp : sp ≠ i := fun hisp => (hguard k (by
              rw [keysOf_append]; exact List.mem_append_left _ hkxs)) (by rw [hl, hisp])
            rw [valAt_spillInsert_ne sm sp p.1 gv' i hisp]
            exact hval
        | none =>
          rw [hl] at iha
          obtain ⟨gv, hc, hval⟩ := iha
          refine ⟨gv, hc, ?_⟩
          cases hlp : lookupTab tab p.1 with
          | some j =>
            obtain ⟨gv', -, rfl⟩ := applyOne_matched tab sp ty sm p s' j hlp hone
            have hj : j ≠ sp := fun hj => hguardp (hj ▸ hlp)
            rw [spillLookup_setFieldVal_ne sm j sp gv' k hj]
            exact hval
          | none =>
            obtain ⟨gv', -, rfl⟩ := applyOne_unmatched tab sp ty sm p s' hlp hone
            rw [spillLookup_spillInsert_ne sm sp p.1 k gv' hspm (Ne.symm hkp)]
            exact spillLookup_some_getD sm sp k gv hval

theorem applyAll_overflow_preserved (tab : List (String × Nat)) (sp : Nat) (ty : Ty) :
    ∀ kvs s s', applyAll tab sp ty s kvs = some s' →
      sp < s.fields.length →
      (∀ k ∈ keysOf kvs, lookupTab tab k ≠ some sp) →
      ∀ k0 gv0, spillLookup s sp k0 = some gv0 → k0 ∉ keysOf kvs →
        spillLookup s' sp k0 = some gv0 := by
  intro kvs
  induction kvs with
  | nil =>
    intro s s' h _ _ k0 gv0 hk0 _
    injection h with h
    rw [← h]
    exact hk0
  | cons kv rest ih =>
    intro s s' h hsp hguard k0 gv0 hk0 hnin
    rw [applyAll_cons] at h
    cases ha : applyOne tab sp ty s kv with
    | none => rw [ha] at h; cases h
    | some s1 =>
      rw [ha] at h
      have hsp1 : sp < s1.fields.length := by
        rw [length_applyOne tab sp ty s kv s1 ha]; exact hsp
      have hk01 : spillLookup s1 sp k0 = some gv0 := by
        cases hl : lookupTab tab kv.1 with
        | some j =>
          obtain ⟨gv, -, rfl⟩ := applyOne_matched tab sp ty s kv s1 j hl ha
          have hj : j ≠ sp := fun hj =>
            (hguard kv.1 (by rw [keysOf_cons]; exact List.mem_cons_self _ _)) (hj ▸ hl)
          rw [spillLookup_setFieldVal_ne s j sp gv k0 hj]
          exact hk0
        | none =>
          obtain ⟨gv, -, rfl⟩ := applyOne_unmatched tab sp ty s kv s1 hl ha
          have hne : k0 ≠ kv.1 := fun he =>
            hnin (by rw [keysOf_cons, he]; exact List.mem_cons_self _ _)
          rw [spillLookup_spillInsert_ne s sp kv.1 k0 gv hsp hne]
          exact spillLookup_some_getD s sp k0 gv0 hk0
      exact ih s1 s' h hsp1
        (fun k hkr => hguard k (by rw [keysOf_cons]; exact List.mem_cons_of_mem _ hkr))
        k0 gv0 hk01
        (fun hr => hnin (by rw [keysOf_cons]; exact List.mem_cons_of_mem _ hr))

theorem applyAll_overflow_created (tab : List (String × Nat)) (sp : Nat) (ty : Ty) :
    ∀ kvs s s', applyAll tab sp ty s kvs = some s' →
      sp < s.fields.length →
      (∀ k ∈ keysOf kvs, lookupTab tab k ≠ some sp) →
      ((spillEntries s sp).isSome = true ∨ ∃ k ∈ keysOf kvs, lookupTab tab k = none) →
      (spillEntries s' sp).isSome = true := by
  intro kvs
  induction kvs with
  | nil =>
    intro s s' h _ _ hd
    injection h with h
    rw [← h]
    rcases hd with hd | ⟨k, hk, -⟩
    · exact hd
    · simp [keysOf] at hk
  | cons kv rest ih =>
    intro s s' h hsp hguard hd
    rw [applyAll_cons] at h
    cases ha : applyOne tab sp ty s kv with
    | none => rw [ha] at h; cases h
    | some s1 =>
      rw [ha] at h
      have hsp1 : sp < s1.fields.length := by
        rw [length_applyOne tab sp ty s kv s1 ha]; exact hsp
      have hguard1 : ∀ k ∈ keysOf rest, lookupTab tab k ≠ some sp :=
        fun k hkr => hguard k (by rw [keysOf_cons]; exact List.mem_cons_of_mem _ hkr)
      cases hl : lookupTab tab kv.1 with
      | some j =>
        obtain ⟨gv, -, rfl⟩ := applyOne_matched tab sp ty s kv s1 j hl ha
        have hj : j ≠ sp := fun hj =>
          (hguard kv.1 (by rw [keysOf_cons]; exact List.mem_cons_self _ _)) (hj ▸ hl)
        have hent : spillEntries (setFieldVal s j gv) sp = spillEntries s sp :=
          spillEntries_setFieldVal_ne s j sp gv hj
        refine ih (setFieldVal s j gv) s' h hsp1 hguard1 ?_
        rcases hd with hd | ⟨k, hk, hkn⟩
        · left
          rw [hent]
          exact hd
        · rw [keysOf_cons] at hk
          rcases List.mem_cons.mp hk with rfl | hkr
          · rw [hl] at hkn
            cases hkn
          · exact Or.inr ⟨k, hkr, hkn⟩
      | none =>
        obtain ⟨gv, -, rfl⟩ := applyOne_unmatched tab sp ty s kv s1 hl ha
        refine ih (spillInsert s sp kv.1 gv) s' h hsp1 hguard1 (Or.inl ?_)
        rw [spillEntries_spillInsert s sp kv.1 gv hsp]
        rfl

/-! ## The loop computes the pure fold over the parsed pairs -/

theorem decodeLoop_toPairs (tab : List (String × Nat)) (sp : Nat) (ty : Ty) :
    ∀ fuel st s s' rest, decodeLoop fuel tab sp ty s st = .ok s' rest →
      ∃ kvs, streamPairs fuel st = some (kvs, rest) ∧
        applyAll tab sp ty s kvs = some s' := by
  intro fuel
  induction fuel with
  | zero =>
    intro st s s' rest h
    simp [decodeLoop] at h
  | succ fuel ih =>
    intro st s s' rest h
    by_cases hm : decMore st
    · simp only [decodeLoop] at h
      rw [if_pos hm] at h
      cases hd : decToken st with
      | error e => rw [hd] at h; cases h
      | ok pr =>
        obtain ⟨keyTok, st1⟩ := pr
        rw [hd] at h
        cases keyTok with
        | str key =>
          cases hp : parseV fuel .value st1 with
          | error e => simp only [hp] at h; cases h
          | ok pv =>
            obtain ⟨v, st2⟩ := pv
            simp only [hp] at h
            cases ha : applyOne tab sp ty s (key, v) with
            | none => simp only [ha] at h; cases h
            | some s2 =>
              simp only [ha] at h
              obtain ⟨kvs, hpairs, happ⟩ := ih st2 s2 s' rest h
              refine ⟨(key, v) :: kvs, ?_, ?_⟩
              · simp only [streamPairs]
                rw [if_pos hm, hd]
                simp only [hp, hpairs]
              · rw [applyAll_cons, ha]
                exact happ
        | delim c => simp only [] at h; cases h
        | num q => simp only [] at h; cases h
        | boolTok b => simp only [] at h; cases h
        | nullTok => simp only [] at h; cases h
    · simp only [decodeLoop] at h
      rw [if_neg hm] at h
      injection h with h1 h2
      refine ⟨[], ?_, ?_⟩
      · simp only [streamPairs]
        rw [if_neg hm, h2]
      · rw [h1]
        rfl

/-! ## Results are stable under appending unread input -/

theorem parseV_value_delim (fuel : Nat) (c : Char) (st0 : Stream) :
    parseV (fuel+1) .value (.ok (.delim c) :: st0) =
      if c = '{' then parseV fuel (.objFields []) st0
      else if c = '[' then parseV fuel (.arrElems []) st0
      else .error (.badInput "unexpected delimiter") := rfl

theorem parseV_value_str (fuel : Nat) (s : String) (st0 : Stream) :
    parseV (fuel+1) .value (.ok (.str s) :: st0) = .ok (.str s, st0) := rfl

theorem parseV_value_num (fuel : Nat) (q : Rat) (st0 : Stream) :
    parseV (fuel+1) .value (.ok (.num q) :: st0) = .ok (.num q, st0) := rfl

theorem parseV_value_bool (fuel : Nat) (b : Bool) (st0 : Stream) :
    parseV (fuel+1) .value (.ok (.boolTok b) :: st0) = .ok (.bool b, st0) := rfl

theorem parseV_value_null (fuel : Nat) (st0 : Stream) :
    parseV (fuel+1) .value (.ok .nullTok :: st0) = .ok (.null, st0) := rfl

theorem parseV_objFields_delim (fuel : Nat) (acc : List (String × JVal)) (c : Char)
    (st0 : Stream) :
    parseV (fuel+1) (.objFields acc) (.ok (.delim c) :: st0) =
      if (Tok.delim c) = .delim '}' then .ok (.obj acc, st0)
      else .error (.badInput "invalid object key") := by
  by_cases h : (Tok.delim c) = .delim '}'
  · rw [if_pos h]
    injection h with h
    subst h
    rfl
  · rw [if_neg h]
    show (if (Tok.delim c) = .delim '}' then _ else _) = _
    rw [if_neg h]

theorem parseV_objFields_str (fuel : Nat) (acc : List (String × JVal)) (k : String)
    (st0 : Stream) :
    parseV (fuel+1) (.objFields acc) (.ok (.str k) :: st0) =
      match parseV fuel .value st0 with
      | .error e => .error e
      | .ok (v, st2) => parseV fuel (.objFields (upsert acc k v)) st2 := rfl

theorem parseV_objFields_num (fuel : Nat) (acc : List (String × JVal)) (q : Rat)
    (st0 : Stream) :
    parseV (fuel+1) (.objFields acc) (.ok (.num q) :: st0) =
      .error (.badInput "invalid object key") := rfl

theorem parseV_objFields_bool (fuel : Nat) (acc : List (String × JVal)) (b : Bool)
    (st0 : Stream) :
    parseV (fuel+1) (.objFields acc) (.ok (.boolTok b) :: st0) =
      .error (.badInput "invalid object key") := rfl

theorem parseV_objFields_null (fuel : Nat) (acc : List (String × JVal))
    (st0 : Stream) :
    parseV (fuel+1) (.objFields acc) (.ok .nullTok :: st0) =
      .error (.badInput "invalid object key") := rfl

theorem parseV_arrElems_cons (fuel : Nat) (acc : List JVal) (t : Tok) (st0 : Stream) :
    parseV (fuel+1) (.arrElems acc) (.ok t :: st0) =
      if t = .delim ']' then .ok (.arr acc.reverse, st0)
      else
        match parseV fuel .value (.ok t :: st0) with
        | .error e => .error e
        | .ok (v, st2) => parseV fuel (.arrElems (v :: acc)) st2 := rfl

theorem parseV_append_mono :
    ∀ fuel mode st v st' g ys, parseV fuel mode st = .ok (v, st') → fuel ≤ g →
      parseV g mode (st ++ ys) = .ok (v, st' ++ ys) := by
  intro fuel
  induction fuel with
  | zero =>
    intro mode st v st' g ys h _
    simp [parseV] at h
  | succ fuel ih =>
    intro mode st v st' g ys h hg
    obtain ⟨g', rfl⟩ : ∃ g', g = g' + 1 := ⟨g - 1, by omega⟩
    have hg' : fuel ≤ g' := by omega
    cases st with
    | nil => cases mode <;> simp [parseV, decToken] at h
    | cons x st0 =>
      cases x with
      | error e => cases mode <;> simp [parseV, decToken] at h
      | ok t =>
        rw [List.cons_append]
        cases mode with
        | value =>
          cases t with
          | delim c =>
            rw [parseV_value_delim] at h
            rw [parseV_value_delim]
            by_cases hc : c = '{'
            · rw [if_pos hc] at h ⊢
              exact ih _ _ _ _ _ _ h hg'
            · rw [if_neg hc] at h ⊢
              by_cases hb : c = '['
              · rw [if_pos hb] at h ⊢
                exact ih _ _ _ _ _ _ h hg'
              · rw [if_neg hb] at h
                cases h
          | str s =>
            rw [parseV_value_str] at h
            injection h with h
            injection h with h1 h2
            rw [parseV_value_str, ← h1, ← h2]
          | num q =>
            rw [parseV_value_num] at h
            injection h with h
            injection h with h1 h2
            rw [parseV_value_num, ← h1, ← h2]
          | boolTok b =>
            rw [parseV_value_bool] at h
            injection h with h
            injection h with h1 h2
            rw [parseV_value_bool, ← h1, ← h2]
          | nullTok =>
            rw [parseV_value_null] at h
            injection h with h
            injection h with h1 h2
            rw [parseV_value_null, ← h1, ← h2]
        | objFields acc =>
          cases t with
          | delim c =>
            rw [parseV_objFields_delim] at h
            rw [parseV_objFields_delim]
            by_cases hc : (Tok.delim c) = .delim '}'
            · rw [if_pos hc] at h ⊢
              injection h with h
              injection h with h1 h2
              rw [← h1, ← h2]
            · rw [if_neg hc] at h
              cases h
          | str k =>
            rw [parseV_objFields_str] at h
            rw [parseV_objFields_str]
            cases hp : parseV fuel .value st0 with
            | error e => rw [hp] at h; cases h
            | ok pv =>
              obtain ⟨v1, st2⟩ := pv
              rw [hp] at h
              have h' : parseV fuel (.objFields (upsert acc k v1)) st2 = .ok (v, st') := h
              rw [ih .value st0 v1 st2 g' ys hp hg']
              exact ih _ _ _ _ _ _ h' hg'
          | num q =>
            rw [parseV_objFields_num] at h
            cases h
          | boolTok b =>
            rw [parseV_objFields_bool] at h
            cases h
          | nullTok =>
            rw [parseV_objFields_null] at h
            cases h
        | arrElems acc =>
          rw [parseV_arrElems_cons] at h
          rw [parseV_arrElems_cons]
          by_cases hcl : t = .delim ']'
          · rw [if_pos hcl] at h ⊢
            injection h with h
            injection h with h1 h2
            rw [← h1, ← h2]
          · rw [if_neg hcl] at h ⊢
            cases hp : parseV fuel .value (.ok t :: st0) with
            | error e => rw [hp] at h; cases h
            | ok pv =>
              obtain ⟨v1, st2⟩ := pv
              rw [hp] at h
              have h' : parseV fuel (.arrElems (v1 :: acc)) st2 = .ok (v, st') := h
              have hv := ih .value (.ok t :: st0) v1 st2 g' ys hp hg'
              rw [List.cons_append] at hv
              rw [hv]
              exact ih _ _ _ _ _ _ h' hg'

theorem decodeLoop_succ (fuel : Nat) (tab : List (String × Nat)) (sp : Nat) (ty : Ty)
    (s : StructVal) (st : Stream) :
    decodeLoop (fuel+1) tab sp ty s st =
      if decMore st then
        match decToken st with
        | .error e => .err (.bubbled e)
        | .ok (keyTok, st1) =>
          match keyTok with
          | .str key =>
            match parseV fuel .value st1 with
            | .error e => .err (.bubbled e)
            | .ok (v, st2) =>
              match applyOne tab sp ty s (key, v) with
              | none => .panicked
              | some s2 => decodeLoop fuel tab sp ty s2 st2
          | _ => .err .givenNonStringKey
      else .ok s st := rfl

theorem decMore_str (key : String) (st0 : Stream) :
    decMore (.ok (.str key) :: st0) = true := rfl

theorem decodeLoop_str (fuel : Nat) (tab : List (String × Nat)) (sp : Nat) (ty : Ty)
    (s : StructVal) (key : String) (st0 : Stream) :
    decodeLoop (fuel+1) tab sp ty s (.ok (.str key) :: st0) =
      match parseV fuel .value st0 with
      | .error e => .err (.bubbled e)
      | .ok (v, st2) =>
        match applyOne tab sp ty s (key, v) with
        | none => .panicked
        | some s2 => decodeLoop fuel tab sp ty s2 st2 := rfl

theorem decodeLoop_num (fuel : Nat) (tab : List (String × Nat)) (sp : Nat) (ty : Ty)
    (s : StructVal) (q : Rat) (st0 : Stream) :
    decodeLoop (fuel+1) tab sp ty s (.ok (.num q) :: st0) =
      .err .givenNonStringKey := rfl

theorem decodeLoop_bool (fuel : Nat) (tab : List (String × Nat)) (sp : Nat) (ty : Ty)
    (s : StructVal) (b : Bool) (st0 : Stream) :
    decodeLoop (fuel+1) tab sp ty s (.ok (.boolTok b) :: st0) =
      .err .givenNonStringKey := rfl

theorem decodeLoop_null (fuel : Nat) (tab : List (String × Nat)) (sp : Nat) (ty : Ty)
    (s : StructVal) (st0 : Stream) :
    decodeLoop (fuel+1) tab sp ty s (.ok .nullTok :: st0) =
      .err .givenNonStringKey := rfl

theorem decodeLoop_delim (fuel : Nat) (tab : List (String × Nat)) (sp : Nat) (ty : Ty)
    (s : StructVal) (c : Char) (st0 : Stream) :
    decodeLoop (fuel+1) tab sp ty s (.ok (.delim c) :: st0) =
      if decMore (.ok (.delim c) :: st0) then .err .givenNonStringKey
      else .ok s (.ok (.delim c) :: st0) := by
  rw [decodeLoop_succ]
  by_cases hm : decMore (.ok (.delim c) :: st0)
  · rw [if_pos hm, if_pos hm]
    rfl
  · rw [if_neg hm, if_neg hm]

theorem decodeLoop_append_mono (tab : List (String × Nat)) (sp : Nat) (ty : Ty) :
    ∀ fuel st s s' rest rest0 g ys,
      decodeLoop fuel tab sp ty s st = .ok s' rest →
      decToken rest = .ok (.delim '}', rest0) →
      fuel ≤ g →
      decodeLoop g tab sp ty s (st ++ ys) = .ok s' (rest ++ ys) := by
  intro fuel
  induction fuel with
  | zero =>
    intro st s s' rest rest0 g ys h _ _
    simp [decodeLoop] at h
  | succ fuel ih =>
    intro st s s' rest rest0 g ys h hcl hg
    obtain ⟨g', rfl⟩ : ∃ g', g = g' + 1 := ⟨g - 1, by omega⟩
    have hg' : fuel ≤ g' := by omega
    by_cases hm : decMore st
    · cases st with
      | nil => simp [decMore] at hm
      | cons x st0 =>
        cases x with
        | error e => simp [decMore] at hm
        | ok t =>
          rw [List.cons_append]
          cases t with
          | str key =>
            rw [decodeLoop_str] at h
            rw [decodeLoop_str]
            cases hp : parseV fuel .value st0 with
            | error e => rw [hp] at h; cases h
            | ok pv =>
              obtain ⟨v, st2⟩ := pv
              rw [hp] at h
              have h' : (match applyOne tab sp ty s (key, v) with
                  | none => LoopRes.panicked
                  | some s2 => decodeLoop fuel tab sp ty s2 st2) = .ok s' rest := h
              rw [parseV_append_mono fuel .value st0 v st2 g' ys hp hg']
              show (match applyOne tab sp ty s (key, v) with
                  | none => LoopRes.panicked
                  | some s2 => decodeLoop g' tab sp ty s2 (st2 ++ ys)) =
                .ok s' (rest ++ ys)
              cases ha : applyOne tab sp ty s (key, v) with
              | none => rw [ha] at h'; cases h'
              | some s2 =>
                rw [ha] at h'
                have h'' : decodeLoop fuel tab sp ty s2 st2 = .ok s' rest := h'
                exact ih st2 s2 s' rest rest0 g' ys h'' hcl hg'
          | delim c =>
            rw [decodeLoop_delim, if_pos hm] at h
            cases h
          | num q =>
            rw [decodeLoop_num] at h
            cases h
          | boolTok b =>
            rw [decodeLoop_bool] at h
            cases h
          | nullTok =>
            rw [decodeLoop_null] at h
            cases h
    · rw [decodeLoop_succ, if_neg hm] at h
      injection h with h1 h2
      subst h1
      subst h2
      have hst : st = .ok (.delim '}') :: rest0 := (decToken_ok_iff st _ rest0).mp hcl
      have hmys : decMore (st ++ ys) = false := by
        rw [hst, List.cons_append]
        rfl
      rw [decodeLoop_succ, if_neg (by rw [hmys]; exact Bool.false_ne_true)]



/-! ## Inversion of a successful call -/

theorem swallowRuneToken_ok (st : Stream) (c : Char) (err : DErr) (rest : Stream)
    (prints : List PrintEvent)
    (h : swallowRuneToken st c err = (.ok rest, prints)) :
    decToken st = .ok (.delim c, rest) := by
  rw [swallowRuneToken] at h
  cases hd : decToken st with
  | error e =>
    rw [hd] at h
    injection h with h1 h2
    cases h1
  | ok pr =>
    obtain ⟨t, rest0⟩ := pr
    rw [hd] at h
    have h' : (if t = .delim c then ((.ok rest0 : Except DErr Stream), ([] : List PrintEvent))
        else ((.error err : Except DErr Stream), [⟨c, t⟩])) = (.ok rest, prints) := h
    by_cases ht : t = .delim c
    · rw [if_pos ht] at h'
      injection h' with h1 h2
      injection h1 with h1
      rw [ht, h1]
    · rw [if_neg ht] at h'
      injection h' with h1 h2
      cases h1

theorem swallowRuneToken_of_error (st : Stream) (c : Char) (err : DErr) (e : LexErr)
    (hd : decToken st = .error e) :
    swallowRuneToken st c err = (.error (.bubbled e), []) := by
  rw [swallowRuneToken, hd]

theorem swallowRuneToken_of_mismatch (st : Stream) (c : Char) (err : DErr) (t : Tok)
    (rest : Stream) (hd : decToken st = .ok (t, rest)) (ht : t ≠ .delim c) :
    swallowRuneToken st c err = (.error err, [⟨c, t⟩]) := by
  rw [swallowRuneToken, hd]
  show (if t = .delim c then ((.ok rest : Except DErr Stream), ([] : List PrintEvent))
      else ((.error err : Except DErr Stream), [⟨c, t⟩])) = _
  rw [if_neg ht]

theorem swallowRuneToken_of_match (st : Stream) (c : Char) (err : DErr)
    (rest : Stream) (hd : decToken st = .ok (.delim c, rest)) :
    swallowRuneToken st c err = (.ok rest, []) := by
  rw [swallowRuneToken, hd]
  show (if (Tok.delim c) = .delim c then ((.ok rest : Except DErr Stream), ([] : List PrintEvent))
      else ((.error err : Except DErr Stream), [⟨c, .delim c⟩])) = _
  rw [if_pos rfl]

theorem unmarshalWith_ok_inv (s0 : StructVal) (name : String) (raw : Stream)
    (s' : StructVal)
    (h : (unmarshalWith (.ptrStruct s0) name raw).outcome = .ok s') :
    ∃ spillIdx vTy st1 rest rest0,
      s0.fields.findIdx? (fun f => decide (f.name = name)) = some spillIdx ∧
      (fieldAt s0 spillIdx).ty = .map .str vTy ∧
      isExported (fieldAt s0 spillIdx).name = true ∧
      decToken raw = .ok (.delim '{', st1) ∧
      decodeLoop (raw.length + 1) (fieldsLookup s0.fields) spillIdx vTy s0 st1 =
        .ok s' rest ∧
      decToken rest = .ok (.delim '}', rest0) := by
  simp only [unmarshalWith] at h
  cases hidx : s0.fields.findIdx? (fun f => decide (f.name = name)) with
  | none => simp only [hidx] at h; cases h
  | some spillIdx =>
    simp only [hidx] at h
    cases hty : (fieldAt s0 spillIdx).ty with
    | map keyTy vTy =>
      simp only [hty] at h
      by_cases hk : keyTy = .str
      · rw [if_pos hk] at h
        by_cases hex : isExported (fieldAt s0 spillIdx).name
        · rw [if_pos hex] at h
          cases hsw : swallowRuneToken raw '{' .notGivenStruct with
          | mk res prints =>
            cases res with
            | error e => simp only [hsw] at h; cases h
            | ok st1 =>
              simp only [hsw] at h
              cases hloop : decodeLoop (raw.length + 1) (fieldsLookup s0.fields)
                  spillIdx vTy s0 st1 with
              | err e => simp only [hloop] at h; cases h
              | panicked => simp only [hloop] at h; cases h
              | ok s2 rest =>
                simp only [hloop] at h
                cases hsw2 : swallowRuneToken rest '}' .malformedJSON with
                | mk res2 prints2 =>
                  cases res2 with
                  | error e => simp only [hsw2] at h; cases h
                  | ok rest1 =>
                    simp only [hsw2] at h
                    injection h with h
                    subst h
                    exact ⟨spillIdx, vTy, st1, rest, rest1, rfl, by rw [hty, hk],
                      hex, swallowRuneToken_ok raw '{' _ st1 prints hsw,
                      hloop, swallowRuneToken_ok rest '}' _ rest1 prints2 hsw2⟩
        · rw [if_neg hex] at h
          cases h
      · rw [if_neg hk] at h
        cases h
    | str => simp only [hty] at h; cases h
    | int => simp only [hty] at h; cases h
    | float => simp only [hty] at h; cases h
    | bool => simp only [hty] at h; cases h
    | iface => simp only [hty] at h; cases h
    | slice elem => simp only [hty] at h; cases h
    | named n => simp only [hty] at h; cases h

theorem fieldsLookup_inj (fs : List Field) (k1 k2 : String) (i : Nat)
    (h1 : lookupTab (fieldsLookup fs) k1 = some i)
    (h2 : lookupTab (fieldsLookup fs) k2 = some i) : k1 = k2 := by
  rw [lookupTab_fieldsLookup] at h1 h2
  obtain ⟨⟨f1, hg1, hw1⟩, -⟩ := (lastWireIdx_some_iff fs k1 i).mp h1
  obtain ⟨⟨f2, hg2, hw2⟩, -⟩ := (lastWireIdx_some_iff fs k2 i).mp h2
  rw [hg1] at hg2
  injection hg2 with hf
  subst hf
  rw [hw1] at hw2
  exact Option.some.inj hw2

theorem fieldsLookup_lt_length (fs : List Field) (k : String) (i : Nat)
    (h : lookupTab (fieldsLookup fs) k = some i) : i < fs.length := by
  rw [lookupTab_fieldsLookup] at h
  obtain ⟨⟨f, hg, -⟩, -⟩ := (lastWireIdx_some_iff fs k i).mp h
  by_contra h'
  rw [List.getElem?_eq_none (by omega)] at hg
  cases hg

/-! ## The claims -/

/-- **C1**: for every valid target and well-formed JSON object input, when
`UnmarshalWith` returns success the consumed input parses as a key/value pair
list `kvs`, and: the final struct is exactly the in-order application of every
pair by the routing rule (matched wire key → `Convert`-assign the field;
unmatched key → insert into the spillover map), so every wire key present in
the input has been applied; every declared field other than the spillover
field whose wire key is absent from the input is left untouched; the
spillover field is left exactly as it was (including staying nil) when every
key matched a non-spillover field; and — provided no input key is the
spillover field's own wire name — the field matched by each present key holds
the conversion of that key's last value, and every unmatched key sits in the
spillover map under that key with its converted last value. -/
theorem unmarshalWith_success_applies_all_keys
    (s0 : StructVal) (name : String) (raw : Stream) (s' : StructVal)
    (h : (unmarshalWith (.ptrStruct s0) name raw).outcome = .ok s') :
    ∃ kvs rest,
      objectPairs raw = some (kvs, rest) ∧
      applyAll (fieldsLookup s0.fields) (spillIdxOf s0 name)
        (mapValTy (tyAt s0 (spillIdxOf s0 name))) s0 kvs = some s' ∧
      (∀ i, i ≠ spillIdxOf s0 name →
        (∀ k ∈ keysOf kvs, lookupTab (fieldsLookup s0.fields) k ≠ some i) →
        valAt s' i = valAt s0 i) ∧
      ((∀ k ∈ keysOf kvs, ∃ i, lookupTab (fieldsLookup s0.fields) k = some i ∧
          i ≠ spillIdxOf s0 name) →
        valAt s' (spillIdxOf s0 name) = valAt s0 (spillIdxOf s0 name)) ∧
      ((∀ k ∈ keysOf kvs,
          lookupTab (fieldsLookup s0.fields) k ≠ some (spillIdxOf s0 name)) →
        ∀ k v, k ∈ keysOf kvs → lastVal kvs k = some v →
          (match lookupTab (fieldsLookup s0.fields) k with
           | some i => ∃ gv, convert v (tyAt s0 i) = some gv ∧ valAt s' i = gv
           | none => ∃ gv,
               convert v (mapValTy (tyAt s0 (spillIdxOf s0 name))) = some gv ∧
               spillLookup s' (spillIdxOf s0 name) k = some gv)) := by
  obtain ⟨spillIdx, vTy, st1, rest, rest0, hidx, hty, hex, hopen, hloop, hclose⟩ :=
    unmarshalWith_ok_inv s0 name raw s' h
  have hsp_eq : spillIdxOf s0 name = spillIdx := by
    rw [spillIdxOf, hidx]
    rfl
  have hty_eq : mapValTy (tyAt s0 spillIdx) = vTy := by
    rw [show tyAt s0 spillIdx = (fieldAt s0 spillIdx).ty from rfl, hty]
    rfl
  obtain ⟨kvs, hpairs, happ⟩ :=
    decodeLoop_toPairs (fieldsLookup s0.fields) spillIdx vTy (raw.length + 1)
      st1 s0 s' rest hloop
  have hsp : spillIdx < s0.fields.length := by
    have := findIdx?_lt_length (fun f => decide (f.name = name)) s0.fields spillIdx 0 hidx
    omega
  have hinj : ∀ k1 k2 i, lookupTab (fieldsLookup s0.fields) k1 = some i →
      lookupTab (fieldsLookup s0.fields) k2 = some i → k1 = k2 :=
    fun k1 k2 i h1 h2 => fieldsLookup_inj s0.fields k1 k2 i h1 h2
  have hbnd : ∀ k i, lookupTab (fieldsLookup s0.fields) k = some i →
      i < s0.fields.length :=
    fun k i hl => fieldsLookup_lt_length s0.fields k i hl
  rw [hsp_eq, hty_eq]
  refine ⟨kvs, rest, ?_, happ, ?_, ?_, ?_⟩
  · rw [objectPairs, hopen]
    exact hpairs
  · intro i hi hks
    exact valAt_applyAll_frame (fieldsLookup s0.fields) spillIdx vTy kvs s0 s'
      happ i hi hks
  · intro hks
    exact valAt_applyAll_spill_frame (fieldsLookup s0.fields) spillIdx vTy kvs
      s0 s' happ hks
  · intro hguard k v hk hlast
    exact applyAll_lastWrite (fieldsLookup s0.fields) spillIdx vTy s0 hsp hinj hbnd
      kvs s' happ hguard k v hk hlast

/-- Witness for the C1 theorem: the concrete run of
`{"foo":"alpha","bar":42,"baz":"zed"}` into the demo target. -/
theorem unmarshalWith_success_applies_all_keys_witness :
    ∃ kvs rest,
      objectPairs rawABC = some (kvs, rest) ∧
      applyAll (fieldsLookup demoStruct.fields) (spillIdxOf demoStruct "Rest")
        (mapValTy (tyAt demoStruct (spillIdxOf demoStruct "Rest"))) demoStruct kvs =
          some demoResultABC ∧
      (∀ i, i ≠ spillIdxOf demoStruct "Rest" →
        (∀ k ∈ keysOf kvs, lookupTab (fieldsLookup demoStruct.fields) k ≠ some i) →
        valAt demoResultABC i = valAt demoStruct i) ∧
      ((∀ k ∈ keysOf kvs, ∃ i, lookupTab (fieldsLookup demoStruct.fields) k = some i ∧
          i ≠ spillIdxOf demoStruct "Rest") →
        valAt demoResultABC (spillIdxOf demoStruct "Rest") =
          valAt demoStruct (spillIdxOf demoStruct "Rest")) ∧
      ((∀ k ∈ keysOf kvs,
          lookupTab (fieldsLookup demoStruct.fields) k ≠ some (spillIdxOf demoStruct "Rest")) →
        ∀ k v, k ∈ keysOf kvs → lastVal kvs k = some v →
          (match lookupTab (fieldsLookup demoStruct.fields) k with
           | some i => ∃ gv, convert v (tyAt demoStruct i) = some gv ∧
               valAt demoResultABC i = gv
           | none => ∃ gv,
               convert v (mapValTy (tyAt demoStruct (spillIdxOf demoStruct "Rest"))) =
                 some gv ∧
               spillLookup demoResultABC (spillIdxOf demoStruct "Rest") k = some gv)) :=
  unmarshalWith_success_applies_all_keys demoStruct "Rest" rawABC demoResultABC rfl

/-- **C4**: the overflow container is created lazily and inserts are
additive.  On every successful run whose input keys never name the spillover
field directly: pre-existing spillover entries under keys not present in the
input survive the call; a nil spillover map stays nil when every input key
matched a declared field; and a nil spillover map has been created (is
non-nil) as soon as the input contains at least one unmatched key. -/
theorem unmarshalWith_overflow_lifecycle
    (s0 : StructVal) (name : String) (raw : Stream) (s' : StructVal)
    (h : (unmarshalWith (.ptrStruct s0) name raw).outcome = .ok s') :
    ∃ kvs rest,
      objectPairs raw = some (kvs, rest) ∧
      ((∀ k ∈ keysOf kvs,
          lookupTab (fieldsLookup s0.fields) k ≠ some (spillIdxOf s0 name)) →
        ((∀ k0 gv0, spillLookup s0 (spillIdxOf s0 name) k0 = some gv0 →
            k0 ∉ keysOf kvs →
            spillLookup s' (spillIdxOf s0 name) k0 = some gv0) ∧
         ((spillEntries s0 (spillIdxOf s0 name) = none ∧
             ∀ k ∈ keysOf kvs, (lookupTab (fieldsLookup s0.fields) k).isSome = true) →
           spillEntries s' (spillIdxOf s0 name) = none) ∧
         ((∃ k ∈ keysOf kvs, lookupTab (fieldsLookup s0.fields) k = none) →
           (spillEntries s' (spillIdxOf s0 name)).isSome = true))) := by
  obtain ⟨spillIdx, vTy, st1, rest, rest0, hidx, hty, hex, hopen, hloop, hclose⟩ :=
    unmarshalWith_ok_inv s0 name raw s' h
  have hsp_eq : spillIdxOf s0 name = spillIdx := by
    rw [spillIdxOf, hidx]
    rfl
  obtain ⟨kvs, hpairs, happ⟩ :=
    decodeLoop_toPairs (fieldsLookup s0.fields) spillIdx vTy (raw.length + 1)
      st1 s0 s' rest hloop
  have hsp : spillIdx < s0.fields.length := by
    have := findIdx?_lt_length (fun f => decide (f.name = name)) s0.fields spillIdx 0 hidx
    omega
  rw [hsp_eq]
  refine ⟨kvs, rest, ?_, ?_⟩
  · rw [objectPairs, hopen]
    exact hpairs
  · intro hguard
    refine ⟨?_, ?_, ?_⟩
    · intro k0 gv0 hk0 hk0nin
      exact applyAll_overflow_preserved (fieldsLookup s0.fields) spillIdx vTy kvs
        s0 s' happ hsp hguard k0 gv0 hk0 hk0nin
    · rintro ⟨hnone, hall⟩
      have hmatched : ∀ k ∈ keysOf kvs, ∃ i,
          lookupTab (fieldsLookup s0.fields) k = some i ∧ i ≠ spillIdx := by
        intro k hk
        cases hl : lookupTab (fieldsLookup s0.fields) k with
        | none =>
          have := hall k hk
          rw [hl] at this
          cases this
        | some i =>
          refine ⟨i, rfl, ?_⟩
          intro hi
          exact (hguard k hk) (by rw [hl, hi])
      have := valAt_applyAll_spill_frame (fieldsLookup s0.fields) spillIdx vTy kvs
        s0 s' happ hmatched
      rw [spillEntries_congr s0 s' spillIdx this, hnone]
    · intro hex2
      exact applyAll_overflow_created (fieldsLookup s0.fields) spillIdx vTy kvs
        s0 s' happ hsp hguard (Or.inr hex2)

/-- Witness for the C4 theorem: re-decoding `{"new":1}` into a target whose
spillover map already holds the unrelated entry `keep`. -/
theorem unmarshalWith_overflow_lifecycle_witness :
    ∃ kvs rest,
      objectPairs rawMerge = some (kvs, rest) ∧
      ((∀ k ∈ keysOf kvs,
          lookupTab (fieldsLookup mergeStruct.fields) k ≠ some (spillIdxOf mergeStruct "Rest")) →
        ((∀ k0 gv0, spillLookup mergeStruct (spillIdxOf mergeStruct "Rest") k0 = some gv0 →
            k0 ∉ keysOf kvs →
            spillLookup mergeResult (spillIdxOf mergeStruct "Rest") k0 = some gv0) ∧
         ((spillEntries mergeStruct (spillIdxOf mergeStruct "Rest") = none ∧
             ∀ k ∈ keysOf kvs,
               (lookupTab (fieldsLookup mergeStruct.fields) k).isSome = true) →
           spillEntries mergeResult (spillIdxOf mergeStruct "Rest") = none) ∧
         ((∃ k ∈ keysOf kvs, lookupTab (fieldsLookup mergeStruct.fields) k = none) →
           (spillEntries mergeResult (spillIdxOf mergeStruct "Rest")).isSome = true))) :=
  unmarshalWith_overflow_lifecycle mergeStruct "Rest" rawMerge mergeResult rfl

/-- **C2**: the declaration checks run in the fixed order — non-pointer
target → `NotGivenMutable`; pointer to non-struct → `NotStructHolder`;
spillover field absent → `MissingSpilloverField`; spillover field not a map,
or a map with a non-string key type → `SpillNotRightMap`; spillover field not
assignable (unexported) → `UnsetableSpilloverField`.  The first violated
check determines the error (each later check is stated under the earlier
checks passing), and each declaration error is returned, with nothing
printed, for *every* raw stream — including streams that are already
lexically invalid — so declaration errors precede any read of the input. -/
theorem unmarshalWith_validation_order :
    (∀ d name raw, unmarshalWith (.nonPtr d) name raw =
      ⟨.err .notGivenMutable, []⟩) ∧
    (∀ d name raw, unmarshalWith (.ptrOther d) name raw =
      ⟨.err .notStructHolder, []⟩) ∧
    (∀ s name raw, s.fields.findIdx? (fun f => decide (f.name = name)) = none →
      unmarshalWith (.ptrStruct s) name raw = ⟨.err .missingSpilloverField, []⟩) ∧
    (∀ s name raw i, s.fields.findIdx? (fun f => decide (f.name = name)) = some i →
      (∀ kt vt, (fieldAt s i).ty = .map kt vt → kt ≠ .str) →
      unmarshalWith (.ptrStruct s) name raw = ⟨.err .spillNotRightMap, []⟩) ∧
    (∀ s name raw i vt, s.fields.findIdx? (fun f => decide (f.name = name)) = some i →
      (fieldAt s i).ty = .map .str vt →
      isExported (fieldAt s i).name = false →
      unmarshalWith (.ptrStruct s) name raw = ⟨.err .unsetableSpilloverField, []⟩) := by
  refine ⟨fun d name raw => rfl, fun d name raw => rfl, ?_, ?_, ?_⟩
  · intro s name raw hidx
    simp only [unmarshalWith, hidx]
  · intro s name raw i hidx hnot
    cases hty : (fieldAt s i).ty with
    | map kt vt =>
      have hne := hnot kt vt hty
      simp only [unmarshalWith, hidx, hty]
      rw [if_neg hne]
    | str => simp only [unmarshalWith, hidx, hty]
    | int => simp only [unmarshalWith, hidx, hty]
    | float => simp only [unmarshalWith, hidx, hty]
    | bool => simp only [unmarshalWith, hidx, hty]
    | iface => simp only [unmarshalWith, hidx, hty]
    | slice elem => simp only [unmarshalWith, hidx, hty]
    | named n => simp only [unmarshalWith, hidx, hty]
  · intro s name raw i vt hidx hty hex
    simp only [unmarshalWith, hidx, hty]
    rw [if_pos trivial, if_neg (by rw [hex]; exact Bool.false_ne_true)]

/-- Witness for the C2 theorem: one concrete target per declaration error,
all called on an already lexically invalid raw stream. -/
theorem unmarshalWith_validation_order_witness :
    unmarshalWith (.nonPtr "int") "Rest" [.error (.badInput "x")] =
      ⟨.err .notGivenMutable, []⟩ ∧
    unmarshalWith (.ptrOther "slice") "Rest" [.error (.badInput "x")] =
      ⟨.err .notStructHolder, []⟩ ∧
    unmarshalWith (.ptrStruct ⟨[]⟩) "Rest" [.error (.badInput "x")] =
      ⟨.err .missingSpilloverField, []⟩ ∧
    unmarshalWith (.ptrStruct ⟨[⟨"Rest", "", .str, .str ""⟩]⟩) "Rest"
      [.error (.badInput "x")] = ⟨.err .spillNotRightMap, []⟩ ∧
    unmarshalWith (.ptrStruct ⟨[⟨"rest", "", .map .str .iface, .map none⟩]⟩) "rest"
      [.error (.badInput "x")] = ⟨.err .unsetableSpilloverField, []⟩ :=
  ⟨unmarshalWith_validation_order.1 "int" "Rest" [.error (.badInput "x")],
   unmarshalWith_validation_order.2.1 "slice" "Rest" [.error (.badInput "x")],
   unmarshalWith_validation_order.2.2.1 ⟨[]⟩ "Rest" [.error (.badInput "x")] rfl,
   unmarshalWith_validation_order.2.2.2.1 ⟨[⟨"Rest", "", .str, .str ""⟩]⟩ "Rest"
     [.error (.badInput "x")] 0 rfl (fun kt vt hmap => by cases hmap),
   unmarshalWith_validation_order.2.2.2.2 ⟨[⟨"rest", "", .map .str .iface, .map none⟩]⟩
     "rest" [.error (.badInput "x")] 0 .iface rfl rfl rfl⟩

/-- **C3**: the wire-key table is built from the declared fields in
declaration order — `wireName` gives a field's wire key as the first
comma-separated segment of a non-empty `json` tag unless that segment is the
sentinel `-` (which excludes the field entirely), and the field's own name
when there is no tag.  A key resolves to index `i` exactly when field `i`
carries that exact wire key and no later field does (Go-map insertion order:
last one wins); key matching throughout is exact string equality.  The
second conjunct states the `-` exclusion directly: a field whose tag is
exactly `-` is never the result of a lookup. -/
theorem fieldsLookup_spec :
    (∀ fs k i, lookupTab (fieldsLookup fs) k = some i ↔
      ((∃ f, fs[i]? = some f ∧ wireName f = some k) ∧
        ∀ (j : Nat) (f' : Field), i < j → fs[j]? = some f' → wireName f' ≠ some k)) ∧
    (∀ fs i f k, fs[i]? = some f → f.tag = "-" →
      lookupTab (fieldsLookup fs) k ≠ some i) := by
  constructor
  · intro fs k i
    rw [lookupTab_fieldsLookup]
    exact lastWireIdx_some_iff fs k i
  · intro fs i f k hget htag hl
    rw [lookupTab_fieldsLookup] at hl
    obtain ⟨⟨f', hget', hw⟩, -⟩ := (lastWireIdx_some_iff fs k i).mp hl
    rw [hget] at hget'
    injection hget' with hf
    subst hf
    have hwn : wireName f = none := by
      rw [wireName, htag]
      rfl
    rw [hwn] at hw
    cases hw

/-- Witness for the C3 theorem: in the demo field list, `foo` resolves to
field 0 and nothing resolves to the tag-`-` field 2. -/
theorem fieldsLookup_spec_witness :
    lookupTab (fieldsLookup demoFields) "foo" = some 0 ∧
    lookupTab (fieldsLookup demoFields) "Rest" ≠ some 2 := by
  constructor
  · refine (fieldsLookup_spec.1 demoFields "foo" 0).mpr
      ⟨⟨⟨"Foo", "foo", .str, .str ""⟩, rfl, rfl⟩, ?_⟩
    intro j f' hj hget hw
    match j, hj with
    | 1, _ =>
      injection hget with hf
      subst hf
      exact absurd hw (by decide)
    | 2, _ =>
      injection hget with hf
      subst hf
      exact absurd hw (by decide)
    | (n+3), _ => simp [demoFields] at hget
  · exact fieldsLookup_spec.2 demoFields 2
      ⟨"Rest", "-", .map .str .iface, .map none⟩ "Rest" rfl rfl

/-- **C5** — the code evaluated at the failing input: on the raw input `[]`
the call does fail with `NotGivenStruct`, but that error renders as the fixed
string of `decode.go` line 34, which contains neither the expected token `{`
nor the actual token `[`; the token pair is only printed to standard output
by `swallowRuneToken`.  (The repository's own test, unmarshal_test.go line
173, expects the message to carry both tokens.) -/
theorem notGivenStruct_message_lacks_tokens :
    unmarshalWith demoTarget "Rest" rawBracketArray =
      ⟨.err .notGivenStruct, [⟨'{', .delim '['⟩]⟩ ∧
    errMessage .notGivenStruct = "spillover: not given a struct in the raw stream" ∧
    (errMessage .notGivenStruct).data.contains '{' = false ∧
    (errMessage .notGivenStruct).data.contains '[' = false :=
  ⟨rfl, rfl, rfl, rfl⟩

/-- **C6** — the code evaluated at the failing input: on an input whose first
token is not `{`, the call emits the `fmt.Printf` line of `decode.go` line
45 on standard output, so its observable effects are not limited to the
mutated target and the returned result. -/
theorem unmarshalWith_prints_on_mismatch :
    (unmarshalWith demoTarget "Rest" [.ok (.num (mkRat 5 1))]).stdout =
      [⟨'{', .num (mkRat 5 1)⟩] :=
  rfl

/-- **C7** — the code evaluated at inputs where erased-then-converted and
direct typed decoding disagree: decoding `{"bar":4.5}` into the demo target
succeeds with the int field truncated to 4, while the direct typed decode the
spec describes rejects 4.5 for an int slot; and decoding `{"more":"wibble"}`
into a `map[string]int` spillover panics in the conversion, while the direct
typed decode returns an error value.  The code therefore decodes into a
type-erased `interface{}` and reflect-converts (decode.go lines 129-143)
rather than decoding into a freshly typed slot. -/
theorem decode_is_erased_then_converted :
    (unmarshalWith demoTarget "Rest" rawBar45).outcome = .ok demoResult45 ∧
    valAt demoResult45 1 = .int 4 ∧
    directTypedDecode .int (.num (mkRat 9 2)) = none ∧
    (unmarshalWith intSpillTarget "Rest" rawWibble).outcome = .panicked ∧
    directTypedDecode .int (.str "wibble") = none :=
  ⟨rfl, rfl, rfl, rfl, rfl⟩

/-- **C8**: errors of the underlying token source or value decoder are
returned unchanged, and a non-`}` token after the key/value loop is
`MalformedJSON`.  For every valid target: (1) when the tokenizer fails on the
very first token, that error is returned as-is (wrapped in nothing but the
bubbling constructor, keeping its own message) — in particular the truncated
input reading end-of-input returns `io.EOF` as-is; (2) at *any* mid-object
position the loop reaches (the reached configuration is stated as the loop's
computation from the start coinciding with its computation from the
intermediate struct, stream position and remaining fuel), an error raised by
`dec.Decode(&v)` while reading the pending value (decode.go lines 130-132) is
returned unchanged, with nothing printed; (3) at any mid-object position the
loop reaches, an error raised by the token source where a key is expected
(decode.go lines 118-121: `dec.More()` goes false on the lexical error and
the close-brace `dec.Token()` read surfaces it) is likewise returned
unchanged — this covers every truncated object (`stE = []` bubbles `io.EOF`);
(4) when the loop completes and the next token is *any* token other than the
close-object delimiter `}`, the call fails with `MalformedJSON`. -/
theorem bubbled_errors_and_malformed_close :
    (∀ s name raw i vt e,
      s.fields.findIdx? (fun f => decide (f.name = name)) = some i →
      (fieldAt s i).ty = .map .str vt →
      isExported (fieldAt s i).name = true →
      decToken raw = .error e →
      unmarshalWith (.ptrStruct s) name raw = ⟨.err (.bubbled e), []⟩) ∧
    (∀ s name raw i vt st1 fuel2 s1 stE key stE1 e,
      s.fields.findIdx? (fun f => decide (f.name = name)) = some i →
      (fieldAt s i).ty = .map .str vt →
      isExported (fieldAt s i).name = true →
      decToken raw = .ok (.delim '{', st1) →
      decodeLoop (raw.length + 1) (fieldsLookup s.fields) i vt s st1 =
        decodeLoop (fuel2 + 1) (fieldsLookup s.fields) i vt s1 stE →
      decToken stE = .ok (.str key, stE1) →
      parseV fuel2 .value stE1 = .error e →
      unmarshalWith (.ptrStruct s) name raw = ⟨.err (.bubbled e), []⟩) ∧
    (∀ s name raw i vt st1 fuel2 s1 stE e,
      s.fields.findIdx? (fun f => decide (f.name = name)) = some i →
      (fieldAt s i).ty = .map .str vt →
      isExported (fieldAt s i).name = true →
      decToken raw = .ok (.delim '{', st1) →
      decodeLoop (raw.length + 1) (fieldsLookup s.fields) i vt s st1 =
        decodeLoop (fuel2 + 1) (fieldsLookup s.fields) i vt s1 stE →
      decToken stE = .error e →
      unmarshalWith (.ptrStruct s) name raw = ⟨.err (.bubbled e), []⟩) ∧
    (∀ s name raw i vt st1 s1 rest t rest0,
      s.fields.findIdx? (fun f => decide (f.name = name)) = some i →
      (fieldAt s i).ty = .map .str vt →
      isExported (fieldAt s i).name = true →
      decToken raw = .ok (.delim '{', st1) →
      decodeLoop (raw.length + 1) (fieldsLookup s.fields) i vt s st1 = .ok s1 rest →
      decToken rest = .ok (t, rest0) →
      t ≠ .delim '}' →
      unmarshalWith (.ptrStruct s) name raw = ⟨.err .malformedJSON, [⟨'}', t⟩]⟩) := by
  refine ⟨?_, ?_, ?_, ?_⟩
  · intro s name raw i vt e hidx hty hex hd
    simp only [unmarshalWith, hidx, hty]
    rw [if_pos trivial, if_pos hex,
      swallowRuneToken_of_error raw '{' .notGivenStruct e hd]
  · intro s name raw i vt st1 fuel2 s1 stE key stE1 e hidx hty hex hopen hreach hkey hval
    have hstE : stE = .ok (.str key) :: stE1 := (decToken_ok_iff stE _ stE1).mp hkey
    have hloopE : decodeLoop (raw.length + 1) (fieldsLookup s.fields) i vt s st1 =
        .err (.bubbled e) := by
      rw [hreach, hstE, decodeLoop_str, hval]
    simp only [unmarshalWith, hidx, hty]
    rw [if_pos trivial, if_pos hex]
    simp only [swallowRuneToken_of_match raw '{' .notGivenStruct st1 hopen]
    simp only [hloopE]
  · intro s name raw i vt st1 fuel2 s1 stE e hidx hty hex hopen hreach hkeyE
    have hm : decMore stE = false := by
      cases stE with
      | nil => rfl
      | cons x tl =>
        cases x with
        | error e0 => rfl
        | ok t => cases hkeyE
    have hloopE : decodeLoop (raw.length + 1) (fieldsLookup s.fields) i vt s st1 =
        .ok s1 stE := by
      rw [hreach, decodeLoop_succ, if_neg (by rw [hm]; exact Bool.false_ne_true)]
    simp only [unmarshalWith, hidx, hty]
    rw [if_pos trivial, if_pos hex]
    simp only [swallowRuneToken_of_match raw '{' .notGivenStruct st1 hopen]
    simp only [hloopE]
    simp only [swallowRuneToken_of_error stE '}' .malformedJSON e hkeyE]
  · intro s name raw i vt st1 s1 rest t rest0 hidx hty hex hopen hloop hnext hne
    simp only [unmarshalWith, hidx, hty]
    rw [if_pos trivial, if_pos hex]
    simp only [swallowRuneToken_of_match raw '{' .notGivenStruct st1 hopen]
    simp only [hloop]
    simp only [swallowRuneToken_of_mismatch rest '}' .malformedJSON t rest0 hnext hne]

/-- Witness for the C8 theorem: the demo target on a lexically bad first
token; on a value-position lexical error one consumed pair deep into the
object; on the truncated `{`; on a key-position lexical error one consumed
pair deep; and on `{` followed by the wrong closer. -/
theorem bubbled_errors_and_malformed_close_witness :
    unmarshalWith (.ptrStruct demoStruct) "Rest" [.error (.badInput "invalid character")] =
      ⟨.err (.bubbled (.badInput "invalid character")), []⟩ ∧
    unmarshalWith (.ptrStruct demoStruct) "Rest"
      [.ok (.delim '{'), .ok (.str "foo"), .ok (.str "alpha"),
       .ok (.str "bar"), .error (.badInput "invalid character 0")] =
      ⟨.err (.bubbled (.badInput "invalid character 0")), []⟩ ∧
    unmarshalWith (.ptrStruct demoStruct) "Rest" [.ok (.delim '{')] =
      ⟨.err (.bubbled .eof), []⟩ ∧
    unmarshalWith (.ptrStruct demoStruct) "Rest"
      [.ok (.delim '{'), .ok (.str "foo"), .ok (.str "alpha"),
       .error (.badInput "invalid character 4")] =
      ⟨.err (.bubbled (.badInput "invalid character 4")), []⟩ ∧
    unmarshalWith (.ptrStruct demoStruct) "Rest" [.ok (.delim '{'), .ok (.delim ']')] =
      ⟨.err .malformedJSON, [⟨'}', .delim ']'⟩]⟩ :=
  ⟨bubbled_errors_and_malformed_close.1 demoStruct "Rest"
     [.error (.badInput "invalid character")] 2 .iface (.badInput "invalid character")
     rfl rfl rfl rfl,
   bubbled_errors_and_malformed_close.2.1 demoStruct "Rest"
     [.ok (.delim '{'), .ok (.str "foo"), .ok (.str "alpha"), .ok (.str "bar"),
      .error (.badInput "invalid character 0")] 2 .iface
     [.ok (.str "foo"), .ok (.str "alpha"), .ok (.str "bar"),
      .error (.badInput "invalid character 0")]
     4 (setFieldVal demoStruct 0 (.str "alpha"))
     [.ok (.str "bar"), .error (.badInput "invalid character 0")]
     "bar" [.error (.badInput "invalid character 0")] (.badInput "invalid character 0")
     rfl rfl rfl rfl rfl rfl rfl,
   bubbled_errors_and_malformed_close.2.2.1 demoStruct "Rest" [.ok (.delim '{')]
     2 .iface [] 1 demoStruct [] .eof rfl rfl rfl rfl rfl rfl,
   bubbled_errors_and_malformed_close.2.2.1 demoStruct "Rest"
     [.ok (.delim '{'), .ok (.str "foo"), .ok (.str "alpha"),
      .error (.badInput "invalid character 4")] 2 .iface
     [.ok (.str "foo"), .ok (.str "alpha"), .error (.badInput "invalid character 4")]
     3 (setFieldVal demoStruct 0 (.str "alpha"))
     [.error (.badInput "invalid character 4")] (.badInput "invalid character 4")
     rfl rfl rfl rfl rfl rfl,
   bubbled_errors_and_malformed_close.2.2.2 demoStruct "Rest"
     [.ok (.delim '{'), .ok (.delim ']')] 2 .iface [.ok (.delim ']')]
     demoStruct [.ok (.delim ']')] (.delim ']') []
     rfl rfl rfl rfl rfl rfl (by decide)⟩

/-- **C9** — the code evaluated at the failing input: decoding
`{"more":"wibble"}` into a target whose spillover map is `map[string]int`
ends in the reflect conversion panic (`decode.go` lines 81-84 and 143), not
in an error return.  (The repository's own test, unmarshal_test.go line 290,
expects the returned error `json: cannot unmarshal string into Go value of
type int` instead.) -/
theorem overflow_conversion_panics :
    (unmarshalWith intSpillTarget "Rest" rawWibble).outcome = .panicked :=
  rfl

/-- **C10**: an input consisting of a complete well-formed JSON object
followed by arbitrary additional input is never rejected: whenever a call
succeeds on a stream, it succeeds with the same result on that stream with
anything appended — the unread entries (including entries that would be
lexical errors) are never examined, because the call returns immediately
after consuming the close-object delimiter. -/
theorem trailing_input_ignored (t : Target) (name : String) (raw extra : Stream)
    (s' : StructVal)
    (h : (unmarshalWith t name raw).outcome = .ok s') :
    (unmarshalWith t name (raw ++ extra)).outcome = .ok s' := by
  cases t with
  | nonPtr d => cases h
  | ptrOther d => cases h
  | ptrStruct s0 =>
    obtain ⟨spillIdx, vTy, st1, rest, rest0, hidx, hty, hex, hopen, hloop, hclose⟩ :=
      unmarshalWith_ok_inv s0 name raw s' h
    have hraw : raw = .ok (.delim '{') :: st1 := (decToken_ok_iff raw _ st1).mp hopen
    have hopen' : decToken (raw ++ extra) = .ok (.delim '{', st1 ++ extra) := by
      rw [hraw, List.cons_append]
      rfl
    have hloop' := decodeLoop_append_mono (fieldsLookup s0.fields) spillIdx vTy
      (raw.length + 1) st1 s0 s' rest rest0 ((raw ++ extra).length + 1) extra hloop
      hclose (by rw [List.length_append]; omega)
    have hrest : rest = .ok (.delim '}') :: rest0 := (decToken_ok_iff rest _ rest0).mp hclose
    have hclose' : decToken (rest ++ extra) = .ok (.delim '}', rest0 ++ extra) := by
      rw [hrest, List.cons_append]
      rfl
    simp only [unmarshalWith, hidx, hty]
    rw [if_pos trivial, if_pos hex]
    simp only [swallowRuneToken_of_match (raw ++ extra) '{' .notGivenStruct
      (st1 ++ extra) hopen']
    simp only [hloop']
    simp only [swallowRuneToken_of_match (rest ++ extra) '}' .malformedJSON
      (rest0 ++ extra) hclose']

/-- Witness for the C10 theorem: `{}` followed by a lexically invalid tail
still decodes to the unchanged demo struct. -/
theorem trailing_input_ignored_witness :
    (unmarshalWith demoTarget "Rest"
      (rawEmptyObj ++ [.error (.badInput "invalid character")])).outcome =
      .ok demoStruct :=
  trailing_input_ignored demoTarget "Rest" rawEmptyObj
    [.error (.badInput "invalid character")] demoStruct rfl

end SwallowJson
